import Mathlib

/-!
Verification of the igor binary-file reader (igor/struct.py, igor/util.py,
igor/binarywave.py, igor/packed.py) against its natural-language specification.

The Python code is shallowly embedded:

* Machine scalars are modeled over Int.  A signed code stores values in
  two-complement range, an unsigned code stores nonnegative values below the
  width bound.  The float codes f and d are modeled by the raw bit pattern of
  the stored IEEE value (a Nat below 2^32 or 2^64), which is in bijection with
  the encoded bytes, exactly as struct.pack lays them out.  A char code c holds
  one byte value (0 to 255).
* Bytes are Nat values below 256; buffers are List Nat.
* Python dicts of decoded fields are association lists in declaration order;
  numpy arrays and nested lists are the Value.arr constructor.
* Exceptions are modeled with Except over an error kind type; each kind names
  the Python exception site it mirrors.
* Fallible steps return Except; stateful byte-order selection on a Structure
  (set_byte_order) is modeled by passing the byte order as an argument.
-/

/-! ## Byte order and scalar codes -/

/-- Byte order, the resolution of the format characters < and >.  The native
order = resolves to one of the two depending on the platform, so theorems
quantify over an arbitrary native order. -/
inductive Endian where
  | little
  | big
deriving DecidableEq

/-- The opposite byte order. -/
def Endian.flip : Endian → Endian
  | .little => .big
  | .big => .little

/-- Scalar format characters used by the igor structure declarations
(struct.py field formats; P is rewritten to L by set_byte_order, struct.py
line 407, so it never reaches the scalar layer). -/
inductive SCode where
  | c
  | h
  | H
  | l
  | L
  | f
  | d
deriving DecidableEq

/-- Standard size in bytes of each scalar code (struct module standard sizes,
used because every byte order prefix of the source disables native padding). -/
def SCode.size : SCode → Nat
  | .c => 1
  | .h => 2
  | .H => 2
  | .l => 4
  | .L => 4
  | .f => 4
  | .d => 8

/-- Whether the code decodes as a signed integer.  The float codes are
modeled by their bit patterns and therefore decode unsigned. -/
def SCode.signed : SCode → Bool
  | .h => true
  | .l => true
  | _ => false

/-- Little-endian base-256 digits of n, exactly size bytes. -/
def natToBytesLE : Nat → Nat → List Nat
  | 0, _ => []
  | s + 1, n => (n % 256) :: natToBytesLE s (n / 256)

/-- Read a little-endian base-256 digit list back into a Nat. -/
def bytesToNatLE : List Nat → Nat
  | [] => 0
  | b :: rest => b + 256 * bytesToNatLE rest

/-- Encode one scalar value as its byte string, as struct.pack does for the
given byte order: the two-complement bit pattern of the value, base-256, least
significant byte first for little-endian and reversed for big-endian. -/
def encodeScalar (e : Endian) (sc : SCode) (v : Int) : List Nat :=
  let le := natToBytesLE sc.size (v % (2 ^ (8 * sc.size))).toNat
  match e with
  | .little => le
  | .big => le.reverse

/-- Decode one scalar from exactly size bytes, as struct.unpack does:
reassemble the unsigned pattern in the given byte order, then sign-correct
for signed codes. -/
def decodeScalar (e : Endian) (sc : SCode) (bs : List Nat) : Int :=
  let le := match e with
    | .little => bs
    | .big => bs.reverse
  let n := bytesToNatLE le
  if sc.signed && decide (2 ^ (8 * sc.size - 1) ≤ n) then
    (n : Int) - 2 ^ (8 * sc.size)
  else
    (n : Int)

/-- The value range struct.pack accepts for a code: two-complement range for
signed codes, width range for unsigned ones (and for the bit patterns of the
float codes). -/
def in_range (sc : SCode) (v : Int) : Bool :=
  if sc.signed then
    decide (-(2 ^ (8 * sc.size - 1) : Int) ≤ v) && decide (v < 2 ^ (8 * sc.size - 1))
  else
    decide (0 ≤ v) && decide (v < 2 ^ (8 * sc.size))

/-! ## Error kinds

Each constructor names the Python exception site it models. -/

inductive Err where
  | structError
  | packValueError
  | noDefault
  | typeError
  | keyError
  | indexError
  | notEnoughData
  | tooMuchData
  | notImplemented
  | assertNpnts : Int → Err
  | unsupportedVersion : Int → Err
  | checksumError : Int → Err
  | sizeMismatch
  | bufferTooSmall
  | assertOffset : Nat → Err
  | chrRange
deriving DecidableEq

/-! ## Values

A decoded or to-be-packed value tree: scalars, numpy arrays or Python lists,
and dicts as association lists in field order. -/

inductive Value where
  | int : Int → Value
  | arr : List Value → Value
  | dict : List (String × Value) → Value

/-! ## Fields and structures (igor/struct.py)

A Field has a format (scalar code or nested Structure), a name, an optional
scalar default and a count, which in the source is either a Python int or a
tuple of dimensions (struct.py lines 134-145). -/

inductive Count where
  | int : Nat → Count
  | dims : List Nat → Count
deriving DecidableEq

mutual
inductive Fmt where
  | scalar : SCode → Fmt
  | strct : String → List Fld → Fmt
inductive Fld where
  | mk : String → Fmt → Count → Option Int → Fld
end

/-- Field name accessor. -/
def Fld.fname : Fld → String
  | .mk n _ _ _ => n

/-- Field format accessor. -/
def Fld.format : Fld → Fmt
  | .mk _ f _ _ => f

/-- Field count accessor. -/
def Fld.count : Fld → Count
  | .mk _ _ c _ => c

/-- Field default accessor. -/
def Fld.default : Fld → Option Int
  | .mk _ _ _ d => d

/-- The source item_count = numpy.prod(count) (struct.py line 140). -/
def Count.itemCount : Count → Nat
  | .int n => n
  | .dims ds => ds.prod

/-! Flat scalar slots of one repetition of a format; a Structure contributes
its structure_count = sum of the total counts of its fields (line 142). -/
mutual
def fmtUnit : Fmt → Nat
  | .scalar _ => 1
  | .strct _ fs => fieldsTotal fs
def fieldsTotal : List Fld → Nat
  | [] => 0
  | f :: rest => fldTotal f + fieldsTotal rest
def fldTotal : Fld → Nat
  | .mk _ f c _ => c.itemCount * fmtUnit f
end

/-! The flat format-character lists built by set_byte_order (struct.py lines
398-405): a scalar field contributes its code item_count times, a nested
Structure field contributes its sub-format repeated item_count times. -/
mutual
def fmtCodes : Fmt → List SCode
  | .scalar sc => [sc]
  | .strct _ fs => fieldsCodes fs
def fieldsCodes : List Fld → List SCode
  | [] => []
  | f :: fs => fldCodes f ++ fieldsCodes fs
def fldCodes : Fld → List SCode
  | .mk _ fmt cnt _ => (List.replicate cnt.itemCount (fmtCodes fmt)).flatten
end

/-- Byte size of a flat format, matching struct.Struct size for the standard
sizes that every byte order prefix of the source selects. -/
def codesSize (codes : List SCode) : Nat :=
  (codes.map SCode.size).sum

/-- Mixed-radix digit extraction from Field.indexes (struct.py lines 163-168):
the loop over reversed(count) takes i mod c as the next digit, prepends it, and
divides i by c. -/
def idxDigits : List Nat → List Nat → Nat → List Nat
  | [], acc, _ => acc
  | c :: rest, acc, i => idxDigits rest (i % c :: acc) (i / c)

/-- The index sequence Field.indexes yields: bare positions for an int count
(modeled as singleton paths), mixed-radix index vectors for a dims count. -/
def indexesFor : Count → List (List Nat)
  | .int n => (List.range n).map (fun i => [i])
  | .dims ds => (List.range ds.prod).map (fun i => idxDigits ds.reverse [] i)

/-- Python dict lookup on the association-list model. -/
def lookupEntry : List (String × Value) → String → Option Value
  | [], _ => none
  | (k, v) :: rest, key => if k == key then some v else lookupEntry rest key

/-- Chained indexing data[i0][i1]... from pack_data (struct.py lines 192-201).
A missing position is an IndexError, caught by the source and turned into the
default marker none; indexing into a non-list raises an uncaught TypeError or
KeyError. -/
def indexGet : Value → List Nat → Except Err (Option Value)
  | v, [] => .ok (some v)
  | .arr vs, i :: rest =>
      match vs[i]? with
      | some v => indexGet v rest
      | none => .ok none
  | .int _, _ :: _ => .error .typeError
  | .dict _, _ :: _ => .error .keyError

/-! ### Packing (Field.pack_data, Field.pack_item, Structure._pack_item)

The generators of the source are modeled as functions yielding their whole
token list; a raised exception anywhere makes the whole pack fail. -/

mutual
/-- Field.pack_data (struct.py lines 170-206): for item_count above one,
iterate the index sequence over the data (missing data is replaced by []);
for item_count one pass the data to pack_item; for item_count zero yield
nothing. -/
def Fld.pack_data : Fld → Option Value → Except Err (List Int)
  | .mk _ fmt cnt dflt, data =>
    if cnt.itemCount > 1 then
      pack_indexed fmt dflt (data.getD (.arr [])) (indexesFor cnt)
    else if cnt.itemCount == 1 then
      Fmt.pack_item fmt dflt data
    else .ok []
/-- The iteration inside pack_data: look up each index, pack the item found
there (or none after an IndexError), and concatenate. -/
def pack_indexed : Fmt → Option Int → Value → List (List Nat) → Except Err (List Int)
  | _, _, _, [] => .ok []
  | fmt, dflt, d, idx :: rest => do
      let item ← indexGet d idx
      let toks ← Fmt.pack_item fmt dflt item
      let more ← pack_indexed fmt dflt d rest
      .ok (toks ++ more)
/-- Field.pack_item (struct.py lines 208-219): nested Structures recurse into
_pack_item; a missing scalar item falls back to the default or raises; a plain
scalar is yielded as is (a non-scalar argument would make struct.pack raise,
modeled as a typeError here at pack time). -/
def Fmt.pack_item : Fmt → Option Int → Option Value → Except Err (List Int)
  | .strct _ fields, _, item => pack_item_struct fields item
  | .scalar _, dflt, none =>
      match dflt with
      | none => .error .noDefault
      | some v => .ok [v]
  | .scalar _, _, some (.int v) => .ok [v]
  | .scalar _, _, some (.arr _) => .error .typeError
  | .scalar _, _, some (.dict _) => .error .typeError
/-- Structure._pack_item (struct.py lines 412-425): a missing item becomes an
empty dict; per field look the name up (KeyError means no data), and a
TypeError from the item access is re-raised as ValueError. -/
def pack_item_struct (fields : List Fld) (item : Option Value) : Except Err (List Int) :=
      match item.getD (.dict []) with
      | .dict entries => pack_fields fields entries
      | _ => .error .packValueError
/-- The per-field loop of _pack_item. -/
def pack_fields : List Fld → List (String × Value) → Except Err (List Int)
  | [], _ => .ok []
  | .mk nm fmt cnt dflt :: fs, entries => do
      let toks ← Fld.pack_data (.mk nm fmt cnt dflt) (lookupEntry entries nm)
      let more ← pack_fields fs entries
      .ok (toks ++ more)
end

/-! ### Unpacking (Field.unpack_data, Field.unpack_item, Structure._unpack_item) -/

/-- Consecutive fixed-size clumps, the effect of the stride-and-zip regrouping
of unpack_data (struct.py line 237) on an exactly sized list. -/
def chunkFixed (k : Nat) (n : Nat) (l : List Int) : List (List Int) :=
  (List.range n).map (fun i => (l.drop (i * k)).take k)

/-- Row-major reshape of a flat value list to the declared dimensions, the
numpy reshape of unpack_data (struct.py lines 251-252). -/
def reshapeDims : List Nat → List Value → Value
  | [], items => (items.headD (.int 0))
  | d :: rest, items =>
      .arr ((List.range d).map
        (fun i => reshapeDims rest ((items.drop (i * rest.prod)).take rest.prod)))

mutual
/-- Field.unpack_data (struct.py lines 221-253): check the exact token count,
regroup nested-Structure repetitions into clumps and unpack each, keep scalar
tokens as scalars; then count one returns the sole element, an int count
returns the flat sequence, a dims count reshapes scalars and is unimplemented
for Structures. -/
def unpack_data (fmt : Fmt) (cnt : Count) (items : List Int) : Except Err Value :=
    if items.length != cnt.itemCount * fmtUnit fmt then .error .notEnoughData
    else
      match fmt with
      | .strct _ fields =>
          match unpackClumps fields
              (if fieldsTotal fields == 0 then []
               else chunkFixed (fieldsTotal fields) cnt.itemCount items) with
          | .error err => .error err
          | .ok unpacked =>
            match cnt with
            | .int 1 =>
                match unpacked.head? with
                | some v => .ok v
                | none => .error .indexError
            | .int _ => .ok (.arr unpacked)
            | .dims _ => .error .notImplemented
      | .scalar _ =>
          let unpacked := items.map Value.int
          match cnt with
          | .int 1 =>
              match unpacked.head? with
              | some v => .ok v
              | none => .error .indexError
          | .int _ => .ok (.arr unpacked)
          | .dims ds => .ok (reshapeDims ds unpacked)
/-- The per-clump loop: each clump is fed to _unpack_item of the nested
Structure (Field.unpack_item, struct.py lines 255-261). -/
def unpackClumps : List Fld → List (List Int) → Except Err (List Value)
  | _, [] => .ok []
  | fields, c :: cs => do
      let v ← unpack_item_struct fields c
      let vs ← unpackClumps fields cs
      .ok (v :: vs)
/-- Structure._unpack_item (struct.py lines 427-444): consume total_count
tokens per field in order, fail when tokens run short or are left over. -/
def unpack_item_struct (fields : List Fld) (args : List Int) : Except Err Value :=
      match unpack_fields fields args with
      | .error err => .error err
      | .ok (entries, rest) =>
          match rest with
          | [] => .ok (.dict entries)
          | _ :: _ => .error .tooMuchData
/-- The per-field loop of _unpack_item, returning the unconsumed tokens. -/
def unpack_fields : List Fld → List Int →
    Except Err (List (String × Value) × List Int)
  | [], args => .ok ([], args)
  | .mk nm fmt cnt _ :: fs, args => do
      let tc := cnt.itemCount * fmtUnit fmt
      if args.length < tc then .error .notEnoughData
      else do
        let v ← unpack_data fmt cnt (args.take tc)
        let (entries, rest) ← unpack_fields fs (args.drop tc)
        .ok ((nm, v) :: entries, rest)
end

/-- Field.unpack_item (struct.py lines 255-261): a nested Structure clump goes
through _unpack_item, a scalar item must be a single token. -/
def unpack_item : Fmt → List Int → Except Err Value
  | .strct _ fields, toks => unpack_item_struct fields toks
  | .scalar _, toks =>
      match toks with
      | [x] => .ok (.int x)
      | _ => .error .indexError

/-! ### The byte layer (struct.Struct pack and unpack on the flat format) -/

/-- struct.Struct.pack over a flat code list: every argument must be in range
for its code (struct.error otherwise) and argument count must match. -/
def structPackArgs (e : Endian) : List SCode → List Int → Except Err (List Nat)
  | [], [] => .ok []
  | sc :: cs, v :: vs =>
      if in_range sc v then do
        let rest ← structPackArgs e cs vs
        .ok (encodeScalar e sc v ++ rest)
      else .error .structError
  | _, _ => .error .structError

/-- struct.Struct.unpack over a flat code list: consumes exactly the declared
bytes, struct.error on a short or long buffer. -/
def structUnpackArgs (e : Endian) : List SCode → List Nat → Except Err (List Int)
  | [], [] => .ok []
  | [], _ :: _ => .error .structError
  | sc :: cs, bs =>
      if bs.length < sc.size then .error .structError
      else do
        let rest ← structUnpackArgs e cs (bs.drop sc.size)
        .ok (decodeScalar e sc (bs.take sc.size) :: rest)

/-! ### Structure objects -/

/-- A declared Structure: a name and an ordered field list.  The byte order
held by the mutable Python object is passed explicitly to every operation. -/
structure Strct where
  name : String
  fields : List Fld

/-- Byte size of the structure, struct.Struct.size. -/
def Strct.size (s : Strct) : Nat := codesSize (fieldsCodes s.fields)

/-- Structure.pack (struct.py lines 446-448): linearize through _pack_item and
hand the flat arguments to struct.Struct.pack. -/
def Strct.pack (e : Endian) (s : Strct) (data : Value) : Except Err (List Nat) := do
  let args ← pack_item_struct s.fields (some data)
  structPackArgs e (fieldsCodes s.fields) args

/-- Structure.unpack (struct.py lines 455-457). -/
def Strct.unpack (e : Endian) (s : Strct) (bs : List Nat) : Except Err Value := do
  let args ← structUnpackArgs e (fieldsCodes s.fields) bs
  unpack_item_struct s.fields args

/-- struct.Struct.unpack_from: needs size bytes at offset, reads exactly
size bytes. -/
def structUnpackFrom (e : Endian) (s : Strct) (buffer : List Nat) (offset : Nat) :
    Except Err (List Int) :=
  if buffer.length < offset + s.size then .error .structError
  else structUnpackArgs e (fieldsCodes s.fields) ((buffer.drop offset).take s.size)

/-- Python dict lookup on a decoded Value. -/
def getField (v : Value) (key : String) : Option Value :=
  match v with
  | .dict es => lookupEntry es key
  | _ => none

/-- Structure.unpack_from (struct.py lines 459-476) including the short-buffer
recovery: on struct.error, any structure not named WaveHeader2 or WaveHeader5
re-raises; otherwise a short buffer is padded with zero bytes to the declared
size, unpacked again, and the decoded npnts is asserted to be zero. -/
def unpack_from (e : Endian) (s : Strct) (buffer : List Nat) (offset : Nat) :
    Except Err Value :=
  match structUnpackFrom e s buffer offset with
  | .ok args => unpack_item_struct s.fields args
  | .error err =>
    if s.name != "WaveHeader2" && s.name != "WaveHeader5" then .error err
    else
      let buffer2 := if buffer.length - offset < s.size
        then buffer ++ List.replicate (s.size + offset - buffer.length) 0
        else buffer
      match structUnpackFrom e s buffer2 offset with
      | .error err2 => .error err2
      | .ok args2 =>
        match unpack_item_struct s.fields args2 with
        | .error err3 => .error err3
        | .ok data =>
          match getField data "npnts" with
          | some (.int n) =>
              if n == 0 then unpack_item_struct s.fields args2
              else .error (.assertNpnts n)
          | _ => .error .keyError

/-- Modelled from the spec: binarywave.py and packed.py call unpack_dict_from
on Structures, a method whose definition is not among the provided sources;
per the spec (section 4.2 step 4 unpacks headers into dict-shaped values, as
unpack_from already returns) it behaves as unpack_from. -/
def unpack_dict_from (e : Endian) (s : Strct) (buffer : List Nat) (offset : Nat) :
    Except Err Value :=
  unpack_from e s buffer offset

/-! ## Utility functions (igor/util.py) -/

/-- byte_order (util.py lines 58-64): start from the platform order, flip when
reordering is needed, and return the format-character order. -/
def byte_order (native : Endian) (needToReorderBytes : Bool) : Endian :=
  let little_endian := native == Endian.little
  let little_endian := if needToReorderBytes then !little_endian else little_endian
  if little_endian then Endian.little else Endian.big

/-- need_to_reorder_bytes (util.py lines 67-72): the file needs reordering
exactly when the low byte of the version field is zero.  The Python mask
version & 0xFF equals the Euclidean remainder mod 256 on arbitrary ints. -/
def need_to_reorder_bytes (version : Int) : Bool :=
  version % 256 == 0

/-- checksum (util.py lines 75-85): view the first numbytes of the buffer as
16-bit signed words in the given order (the trailing odd byte is dropped by
the integer division), sum them onto the accumulator, apply the legacy 32-bit
rollover correction, and mask to 16 bits.  numpy raises when the buffer is
shorter than the requested view. -/
def checksum (buffer : List Nat) (e : Endian) (oldcksum : Int) (numbytes : Nat) :
    Except Err Int :=
  if buffer.length < 2 * (numbytes / 2) then .error .bufferTooSmall
  else
    let words := (List.range (numbytes / 2)).map
      (fun i => decodeScalar e .h [buffer.getD (2 * i) 0, buffer.getD (2 * i + 1) 0])
    let acc := oldcksum + words.sum
    let acc := if acc > 2 ^ 31 then
        let m := acc % 2 ^ 32
        if m > 2 ^ 31 then m - 2 ^ 31 else m
      else acc
    .ok (acc % 65536)

/-! ## Binary wave structures (igor/binarywave.py lines 91-226)

The P pointer fields are declared through the set_byte_order replacement as L.
Defaults of zero become some 0; fields without a default carry none. -/

def BinHeaderCommon : Strct :=
  ⟨"BinHeaderCommon", [.mk "version" (.scalar .h) (.int 1) none]⟩

def BinHeader1 : Strct :=
  ⟨"BinHeader1",
    [.mk "version" (.scalar .h) (.int 1) none,
     .mk "wfmSize" (.scalar .l) (.int 1) none,
     .mk "checksum" (.scalar .h) (.int 1) none]⟩

def BinHeader2 : Strct :=
  ⟨"BinHeader2",
    [.mk "version" (.scalar .h) (.int 1) none,
     .mk "wfmSize" (.scalar .l) (.int 1) none,
     .mk "noteSize" (.scalar .l) (.int 1) none,
     .mk "pictSize" (.scalar .l) (.int 1) (some 0),
     .mk "checksum" (.scalar .h) (.int 1) none]⟩

def BinHeader3 : Strct :=
  ⟨"BinHeader3",
    [.mk "version" (.scalar .h) (.int 1) none,
     .mk "wfmSize" (.scalar .h) (.int 1) none,
     .mk "noteSize" (.scalar .l) (.int 1) none,
     .mk "formulaSize" (.scalar .l) (.int 1) none,
     .mk "pictSize" (.scalar .l) (.int 1) (some 0),
     .mk "checksum" (.scalar .h) (.int 1) none]⟩

def BinHeader5 : Strct :=
  ⟨"BinHeader5",
    [.mk "version" (.scalar .h) (.int 1) none,
     .mk "checksum" (.scalar .h) (.int 1) none,
     .mk "wfmSize" (.scalar .l) (.int 1) none,
     .mk "formulaSize" (.scalar .l) (.int 1) none,
     .mk "noteSize" (.scalar .l) (.int 1) none,
     .mk "dataEUnitsSize" (.scalar .l) (.int 1) none,
     .mk "dimEUnitsSize" (.scalar .l) (.int 4) none,
     .mk "dimLabelsSize" (.scalar .l) (.int 4) none,
     .mk "sIndicesSize" (.scalar .l) (.int 1) none,
     .mk "optionsSize1" (.scalar .l) (.int 1) (some 0),
     .mk "optionsSize2" (.scalar .l) (.int 1) (some 0)]⟩

def WaveHeader2 : Strct :=
  ⟨"WaveHeader2",
    [.mk "type" (.scalar .h) (.int 1) none,
     .mk "next" (.scalar .L) (.int 1) (some 0),
     .mk "bname" (.scalar .c) (.int 20) none,
     .mk "whVersion" (.scalar .h) (.int 1) (some 0),
     .mk "srcFldr" (.scalar .h) (.int 1) (some 0),
     .mk "fileName" (.scalar .L) (.int 1) (some 0),
     .mk "dataUnits" (.scalar .c) (.int 4) (some 0),
     .mk "xUnits" (.scalar .c) (.int 4) (some 0),
     .mk "npnts" (.scalar .l) (.int 1) none,
     .mk "aModified" (.scalar .h) (.int 1) (some 0),
     .mk "hsA" (.scalar .d) (.int 1) none,
     .mk "hsB" (.scalar .d) (.int 1) none,
     .mk "wModified" (.scalar .h) (.int 1) (some 0),
     .mk "swModified" (.scalar .h) (.int 1) (some 0),
     .mk "fsValid" (.scalar .h) (.int 1) none,
     .mk "topFullScale" (.scalar .d) (.int 1) none,
     .mk "botFullScale" (.scalar .d) (.int 1) none,
     .mk "useBits" (.scalar .c) (.int 1) (some 0),
     .mk "kindBits" (.scalar .c) (.int 1) (some 0),
     .mk "formula" (.scalar .L) (.int 1) (some 0),
     .mk "depID" (.scalar .l) (.int 1) (some 0),
     .mk "creationDate" (.scalar .L) (.int 1) none,
     .mk "wUnused" (.scalar .c) (.int 2) (some 0),
     .mk "modDate" (.scalar .L) (.int 1) none,
     .mk "waveNoteH" (.scalar .L) (.int 1) none,
     .mk "wData" (.scalar .f) (.int 4) none]⟩

def WaveHeader5 : Strct :=
  ⟨"WaveHeader5",
    [.mk "next" (.scalar .L) (.int 1) none,
     .mk "creationDate" (.scalar .L) (.int 1) none,
     .mk "modDate" (.scalar .L) (.int 1) none,
     .mk "npnts" (.scalar .l) (.int 1) none,
     .mk "type" (.scalar .h) (.int 1) none,
     .mk "dLock" (.scalar .h) (.int 1) (some 0),
     .mk "whpad1" (.scalar .c) (.int 6) (some 0),
     .mk "whVersion" (.scalar .h) (.int 1) (some 1),
     .mk "bname" (.scalar .c) (.int 32) none,
     .mk "whpad2" (.scalar .l) (.int 1) (some 0),
     .mk "dFolder" (.scalar .L) (.int 1) (some 0),
     .mk "nDim" (.scalar .l) (.int 4) none,
     .mk "sfA" (.scalar .d) (.int 4) none,
     .mk "sfB" (.scalar .d) (.int 4) none,
     .mk "dataUnits" (.scalar .c) (.int 4) (some 0),
     .mk "dimUnits" (.scalar .c) (.dims [4, 4]) (some 0),
     .mk "fsValid" (.scalar .h) (.int 1) none,
     .mk "whpad3" (.scalar .h) (.int 1) (some 0),
     .mk "topFullScale" (.scalar .d) (.int 1) none,
     .mk "botFullScale" (.scalar .d) (.int 1) none,
     .mk "dataEUnits" (.scalar .L) (.int 1) (some 0),
     .mk "dimEUnits" (.scalar .L) (.int 4) (some 0),
     .mk "dimLabels" (.scalar .L) (.int 4) (some 0),
     .mk "waveNoteH" (.scalar .L) (.int 1) (some 0),
     .mk "whUnused" (.scalar .l) (.int 16) (some 0),
     .mk "aModified" (.scalar .h) (.int 1) (some 0),
     .mk "wModified" (.scalar .h) (.int 1) (some 0),
     .mk "swModified" (.scalar .h) (.int 1) (some 0),
     .mk "useBits" (.scalar .c) (.int 1) (some 0),
     .mk "kindBits" (.scalar .c) (.int 1) (some 0),
     .mk "formula" (.scalar .L) (.int 1) (some 0),
     .mk "depID" (.scalar .l) (.int 1) (some 0),
     .mk "whpad4" (.scalar .h) (.int 1) (some 0),
     .mk "srcFldr" (.scalar .h) (.int 1) (some 0),
     .mk "fileName" (.scalar .L) (.int 1) (some 0),
     .mk "sIndices" (.scalar .L) (.int 1) (some 0),
     .mk "wData" (.scalar .f) (.int 1) none]⟩

/-- TYPE_TABLE (binarywave.py lines 61-85) reduced to what the size check
consumes: whether a numeric type code is a key, and the element byte size of
the resolved numpy dtype.  Code 0 maps to None, whose dtype is float64. -/
def TYPE_TABLE_itemsize : Int → Option Nat
  | 0 => some 8
  | 1 => some 16
  | 2 => some 4
  | 3 => some 8
  | 4 => some 8
  | 5 => some 16
  | 8 => some 1
  | 9 => some 2
  | 16 => some 2
  | 17 => some 4
  | 32 => some 4
  | 33 => some 8
  | 72 => some 1
  | 73 => some 2
  | 80 => some 2
  | 81 => some 4
  | 96 => some 4
  | 97 => some 8
  | _ => none

/-- _version_structs (binarywave.py lines 230-252): version picks out the
header pair; the checksum region is the two sizes summed, minus 4 for version
5 because its checksum does not include the wData field. -/
def version_structs (version : Int) : Except Err (Strct × Strct × Nat) :=
  if version == 1 then
    .ok (BinHeader1, WaveHeader2, BinHeader1.size + WaveHeader2.size)
  else if version == 2 then
    .ok (BinHeader2, WaveHeader2, BinHeader2.size + WaveHeader2.size)
  else if version == 3 then
    .ok (BinHeader3, WaveHeader2, BinHeader3.size + WaveHeader2.size)
  else if version == 5 then
    .ok (BinHeader5, WaveHeader5, BinHeader5.size + WaveHeader5.size - 4)
  else .error (.unsupportedVersion version)

/-- Dict field access returning an int scalar, the wave_info[key] reads of
load; a missing key is a KeyError, a non-scalar a TypeError at use site. -/
def getIntField (v : Value) (key : String) : Except Err Int :=
  match getField v key with
  | some (.int n) => .ok n
  | some _ => .error .typeError
  | none => .error .keyError

/-- Dict field access returning a flat int array, the wave_info[key] read of
the nDim field. -/
def getIntListField (v : Value) (key : String) : Except Err (List Int) :=
  match getField v key with
  | some (.arr vs) =>
      vs.mapM (fun w => match w with
        | .int n => Except.ok n
        | _ => Except.error Err.typeError)
  | some _ => .error .typeError
  | none => .error .keyError

/-- Shape derivation for version 5 (binarywave.py line 294):
[n for n in nDim if n > 0] or (0,). -/
def shape5 (nDim : List Int) : List Int :=
  let s := nDim.filter (fun n => decide (0 < n))
  if s.isEmpty then [0] else s

/-- Modelled from the spec: the claimed shape rule, the tuple of the nonzero
leading entries of nDim, defaulting to (0,) when every entry of nDim is zero
(spec sections 4.2 step 6 and 8, shape derivation).  Stated as a separate
definition so it can be compared against the source rule shape5. -/
def shape5_claim (nDim : List Int) : List Int :=
  let s := nDim.takeWhile (fun n => decide (n ≠ 0))
  if nDim.all (fun n => decide (n = 0)) then [0] else s

/-- The type and size validation of load (binarywave.py lines 297-306): text
waves skip it, a type in the table (or a nonzero point count) resolves the
dtype (KeyError when absent) and asserts dataByteCount = npnts * itemsize,
anything else is a tolerated formula wave.  The returned number is the
resolved element size. -/
def size_check (type npnts waveDataSize : Int) : Except Err Nat :=
  if type == 0 then .ok 1
  else if (TYPE_TABLE_itemsize type).isSome || npnts != 0 then
    match TYPE_TABLE_itemsize type with
    | some isz =>
        if waveDataSize == npnts * (isz : Int) then .ok isz
        else .error .sizeMismatch
    | none => .error .keyError
  else .ok 1

/-- The wave data byte count (binarywave.py lines 281-288): for versions 1-3
it is wfmSize minus the wave-header size, for version 5 it is wfmSize minus
the wave-header size less the 4-byte wData tail. -/
def waveDataSizeOf (version : Int) (wfmSize : Int) (waveStructSize : Nat) : Int :=
  if version == 5 then wfmSize - ((waveStructSize : Int) - 4)
  else wfmSize - (waveStructSize : Int)

/-- load (binarywave.py lines 255-306) up to and including the shape and size
determination: version probing in native order, byte-order detection and
re-read, version dispatch, checksum validation, header unpacking, shape
derivation, and the type-size check.  The construction of the numpy data
buffer and the trailing sections are beyond the embedded fragment; the
returned triple is the computed shape plus both header dicts. -/
def load (native : Endian) (file : List Nat) :
    Except Err (List Int × Value × Value) := do
  let b0 := file.take BinHeaderCommon.size
  let vd ← unpack_dict_from native BinHeaderCommon b0 0
  let version0 ← getIntField vd "version"
  let needToReorderBytes := need_to_reorder_bytes version0
  let byteOrder := byte_order native needToReorderBytes
  let version ←
    if needToReorderBytes then do
      getIntField (← unpack_dict_from byteOrder BinHeaderCommon b0 0) "version"
    else pure version0
  let (bin_struct, wave_struct, checkSumSize) ← version_structs version
  let b := file.take (bin_struct.size + wave_struct.size)
  let c ← checksum b byteOrder 0 checkSumSize
  if c != 0 then .error (.checksumError c)
  else do
    let bin_info ← unpack_dict_from byteOrder bin_struct b 0
    let wave_info ← unpack_dict_from byteOrder wave_struct b bin_struct.size
    let wfmSize ← getIntField bin_info "wfmSize"
    let waveDataSize := waveDataSizeOf version wfmSize wave_struct.size
    let typ ← getIntField wave_info "type"
    let npnts ← getIntField wave_info "npnts"
    let shape ←
      if version == 5 then do
        let nDim ← getIntListField wave_info "nDim"
        pure (shape5 nDim)
      else pure [npnts]
    let _ ← size_check typ npnts waveDataSize
    let shape := if typ == 0 then [waveDataSize] else shape
    .ok (shape, bin_info, wave_info)

/-- The checksum value the load pipeline checks, recomputed from the raw file:
none when the version probe, the version dispatch or the numpy view fails
before the checksum comparison is reached. -/
def fileChecksum (native : Endian) (file : List Nat) : Option Int :=
  match unpack_dict_from native BinHeaderCommon (file.take BinHeaderCommon.size) 0 with
  | .error _ => none
  | .ok vd =>
    match getIntField vd "version" with
    | .error _ => none
    | .ok version0 =>
      let needToReorderBytes := need_to_reorder_bytes version0
      let byteOrder := byte_order native needToReorderBytes
      let versionResult :=
        if needToReorderBytes then
          match unpack_dict_from byteOrder BinHeaderCommon
              (file.take BinHeaderCommon.size) 0 with
          | .error _ => none
          | .ok vd2 =>
            match getIntField vd2 "version" with
            | .error _ => none
            | .ok v2 => some v2
        else some version0
      match versionResult with
      | none => none
      | some version =>
        match version_structs version with
        | .error _ => none
        | .ok (bin_struct, wave_struct, checkSumSize) =>
          match checksum (file.take (bin_struct.size + wave_struct.size))
              byteOrder 0 checkSumSize with
          | .error _ => none
          | .ok c => some c

/-! ## Text waves (binarywave.py lines 384-401) -/

/-- Modelled from the spec: the concrete record classes live in source files
(record/folder.py, record/wave.py and the record registry) that are not among
the provided sources; per the spec (sections 3 and 4.3) the reduction
dispatches on the concrete record kind, FolderStartRecord carries the folder
name, and wave, variables and all remaining record kinds are opaque payloads,
abstracted here to an identifier. -/
inductive PRec where
  | folderStart : String → PRec
  | folderEnd : PRec
  | wave : Nat → PRec
  | variables : Nat → PRec
  | other : PRec
deriving DecidableEq

/-- A filesystem node value: a subfolder dict or a record list under one of
the reserved keys. -/
inductive FsEntry where
  | dir : List (String × FsEntry) → FsEntry
  | recs : List PRec → FsEntry

/-- In-place dict update cwd[name] = value: replace an existing key,
otherwise append in insertion order. -/
def insertKey : List (String × FsEntry) → String → FsEntry →
    List (String × FsEntry)
  | [], k, v => [(k, v)]
  | (k0, v0) :: rest, k, v =>
      if k0 == k then (k0, v) :: rest else (k0, v0) :: insertKey rest k v

/-- Association-list lookup on a folder node. -/
def lookupFs : List (String × FsEntry) → String → Option FsEntry
  | [], _ => none
  | (k0, v0) :: rest, k => if k0 == k then some v0 else lookupFs rest k

/-- The record-appending arm of the reduction (packed.py lines 118-126):
append to the reserved list when present, create it on first use.  If the key
holds a folder dict the append call would fail, so the crash is none. -/
def appendRec (d : List (String × FsEntry)) (k : String) (r : PRec) :
    Option (List (String × FsEntry)) :=
  match lookupFs d k with
  | some (.recs rs) => some (insertKey d k (.recs (rs ++ [r])))
  | some (.dir _) => none
  | none => some (d ++ [(k, .recs [r])])

/-- Collapse the still-open folders at end of records, merging each child into
its parent bottom-up, carrying the current top as an accumulator. -/
def foldStackGo : String × List (String × FsEntry) →
    List (String × List (String × FsEntry)) → List (String × FsEntry)
  | (_, d), [] => d
  | (n, d), (pn, pd) :: rest => foldStackGo (pn, insertKey pd n (.dir d)) rest

/-- Collapse the still-open folders at end of records, merging each child dict
into its parent as the shared mutation already did in the source. -/
def foldStack : List (String × List (String × FsEntry)) → List (String × FsEntry)
  | [] => []
  | top :: rest => foldStackGo top rest

/-- The reduction loop (packed.py lines 108-126) in a pure form.  The Python
code mutates dicts shared between the stack and the tree; here a folder-end
merges the finished child into its parent, and the loop keeps the root dict
aside when the root itself is popped.  The top of the stack is the head.
Reading cwd from an empty stack is the IndexError crash, returning none. -/
def packedLoop : List PRec → List (String × List (String × FsEntry)) →
    Option (List (String × FsEntry)) → Option (List (String × FsEntry))
  | [], stack, saved =>
      match stack with
      | [] => saved
      | _ :: _ => some (foldStack stack)
  | _ :: _, [], _ => none
  | r :: rest, (n, d) :: st, saved =>
      match r with
      | .folderStart name =>
          packedLoop rest ((name, []) :: (n, insertKey d name (.dir [])) :: st) saved
      | .folderEnd =>
          match st with
          | [] => packedLoop rest [] (some d)
          | (pn, pd) :: ss =>
              packedLoop rest ((pn, insertKey pd n (.dir d)) :: ss) saved
      | .wave _ =>
          match appendRec d ":waves" r with
          | some d2 => packedLoop rest ((n, d2) :: st) saved
          | none => none
      | .variables _ =>
          match appendRec d ":variables" r with
          | some d2 => packedLoop rest ((n, d2) :: st) saved
          | none => none
      | .other => packedLoop rest ((n, d) :: st) saved

/-- The filesystem phase of packed.load (packed.py lines 108-128): seed the
stack with the root node and reduce the record list; the result is the
filesystem dict, a single root key over the built tree. -/
def packed_filesystem (records : List PRec) : Option (List (String × FsEntry)) :=
  match packedLoop records [("root", [])] none with
  | some rootDir => some [("root", .dir rootDir)]
  | none => none

/-! ## Well-formed structure declarations and conforming value trees

The round-trip claim ranges over structures combining scalar fields, flat and
multi-dimensional array fields and nested or repeated sub-structure fields.
The wf predicate pins that grammar down on the source data model: field names
are distinct within a structure, nested structures appear with an int count
and have at least one flat slot, and dims counts are nonempty with a product
other than one (a dims count of product one packs the nested list itself as
one scalar item and cannot round trip, and the source raises
NotImplementedError on dims-counted structure fields). -/

/-- Distinctness of the field names of one structure. -/
def nodupNames : List String → Bool
  | [] => true
  | k :: ks => !(ks.contains k) && nodupNames ks

/-- The names of a field list. -/
def fieldNames (fs : List Fld) : List String := fs.map Fld.fname

mutual
def wfFmt : Fmt → Bool
  | .scalar _ => true
  | .strct _ fields => nodupNames (fieldNames fields) && wfFields fields
def wfFields : List Fld → Bool
  | [] => true
  | f :: fs => wfFld f && wfFields fs
def wfFld : Fld → Bool
  | .mk _ fmt cnt _ =>
      wfFmt fmt &&
      (match fmt, cnt with
       | .strct _ flds, .int _ => decide (1 ≤ fieldsTotal flds)
       | .strct _ _, .dims _ => false
       | .scalar _, .int _ => true
       | .scalar _, .dims ds => !ds.isEmpty && decide (ds.prod ≠ 1))
end

mutual
def conforms : Fmt → Value → Bool
  | .scalar sc, .int v => in_range sc v
  | .scalar _, _ => false
  | .strct _ fields, .dict entries => conformsFields fields entries
  | .strct _ _, _ => false
def conformsFields : List Fld → List (String × Value) → Bool
  | [], [] => true
  | _ :: _, [] => false
  | [], _ :: _ => false
  | .mk nm fmt (.int 1) _ :: fs, (k, v) :: es =>
      (k == nm) && conforms fmt v && conformsFields fs es
  | .mk nm fmt (.int n) _ :: fs, (k, v) :: es =>
      (k == nm) &&
      (match v with
       | .arr vs => (vs.length == n) && conformsList fmt vs
       | _ => false) && conformsFields fs es
  | .mk nm fmt (.dims ds) _ :: fs, (k, v) :: es =>
      (k == nm) &&
      (match ds with
       | [] => false
       | d :: rest => conformsDims fmt d rest v) && conformsFields fs es
def conformsDims : Fmt → Nat → List Nat → Value → Bool
  | fmt, d, rest, .arr vs => (vs.length == d) && conformsDimsList fmt rest vs
  | _, _, _, .int _ => false
  | _, _, _, .dict _ => false
def conformsDimsList : Fmt → List Nat → List Value → Bool
  | _, _, [] => true
  | fmt, [], v :: vs => conforms fmt v && conformsDimsList fmt [] vs
  | fmt, d :: rest, v :: vs =>
      conformsDims fmt d rest v && conformsDimsList fmt (d :: rest) vs
def conformsList : Fmt → List Value → Bool
  | _, [] => true
  | fmt, v :: vs => conforms fmt v && conformsList fmt vs
end

/-! ## Fuel-indexed evaluators

The pack and unpack families above are compiled by well-founded recursion, so
the kernel cannot evaluate them definitionally on closed inputs.  The twin
functions below mirror them with an explicit fuel argument and structural
recursion on the fuel; a soundness lemma per function transports any computed
some result back to the original definition, which lets concrete witnesses be
checked with decide. -/

mutual
def unpack_dataF : Nat → Fmt → Count → List Int → Option (Except Err Value)
  | 0, _, _, _ => none
  | fu + 1, fmt, cnt, items =>
    if items.length != cnt.itemCount * fmtUnit fmt then some (.error .notEnoughData)
    else
      match fmt with
      | .strct _ fields =>
          match unpackClumpsF fu fields
              (if fieldsTotal fields == 0 then []
               else chunkFixed (fieldsTotal fields) cnt.itemCount items) with
          | none => none
          | some (.error err) => some (.error err)
          | some (.ok unpacked) =>
            match cnt with
            | .int 1 =>
                match unpacked.head? with
                | some v => some (.ok v)
                | none => some (.error .indexError)
            | .int _ => some (.ok (.arr unpacked))
            | .dims _ => some (.error .notImplemented)
      | .scalar _ =>
          let unpacked := items.map Value.int
          match cnt with
          | .int 1 =>
              match unpacked.head? with
              | some v => some (.ok v)
              | none => some (.error .indexError)
          | .int _ => some (.ok (.arr unpacked))
          | .dims ds => some (.ok (reshapeDims ds unpacked))
def unpackClumpsF : Nat → List Fld → List (List Int) → Option (Except Err (List Value))
  | 0, _, _ => none
  | _ + 1, _, [] => some (.ok [])
  | fu + 1, fields, c :: cs =>
      match unpack_item_structF fu fields c with
      | none => none
      | some (.error err) => some (.error err)
      | some (.ok v) =>
          match unpackClumpsF fu fields cs with
          | none => none
          | some (.error err) => some (.error err)
          | some (.ok vs) => some (.ok (v :: vs))
def unpack_item_structF : Nat → List Fld → List Int → Option (Except Err Value)
  | 0, _, _ => none
  | fu + 1, fields, args =>
      match unpack_fieldsF fu fields args with
      | none => none
      | some (.error err) => some (.error err)
      | some (.ok (entries, rest)) =>
          match rest with
          | [] => some (.ok (.dict entries))
          | _ :: _ => some (.error .tooMuchData)
def unpack_fieldsF : Nat → List Fld → List Int →
    Option (Except Err (List (String × Value) × List Int))
  | 0, _, _ => none
  | _ + 1, [], args => some (.ok ([], args))
  | fu + 1, .mk nm fmt cnt _ :: fs, args =>
      if args.length < cnt.itemCount * fmtUnit fmt then some (.error .notEnoughData)
      else
        match unpack_dataF fu fmt cnt (args.take (cnt.itemCount * fmtUnit fmt)) with
        | none => none
        | some (.error err) => some (.error err)
        | some (.ok v) =>
            match unpack_fieldsF fu fs (args.drop (cnt.itemCount * fmtUnit fmt)) with
            | none => none
            | some (.error err) => some (.error err)
            | some (.ok (entries, rest)) => some (.ok ((nm, v) :: entries, rest))
end

mutual
def pack_dataF : Nat → Fld → Option Value → Option (Except Err (List Int))
  | 0, _, _ => none
  | fu + 1, .mk _ fmt cnt dflt, data =>
    if cnt.itemCount > 1 then
      pack_indexedF fu fmt dflt (data.getD (.arr [])) (indexesFor cnt)
    else if cnt.itemCount == 1 then pack_itemF fu fmt dflt data
    else some (.ok [])
def pack_indexedF : Nat → Fmt → Option Int → Value → List (List Nat) →
    Option (Except Err (List Int))
  | 0, _, _, _, _ => none
  | _ + 1, _, _, _, [] => some (.ok [])
  | fu + 1, fmt, dflt, d, idx :: rest =>
      match indexGet d idx with
      | .error err => some (.error err)
      | .ok item =>
        match pack_itemF fu fmt dflt item with
        | none => none
        | some (.error err) => some (.error err)
        | some (.ok toks) =>
          match pack_indexedF fu fmt dflt d rest with
          | none => none
          | some (.error err) => some (.error err)
          | some (.ok more) => some (.ok (toks ++ more))
def pack_itemF : Nat → Fmt → Option Int → Option Value → Option (Except Err (List Int))
  | 0, _, _, _ => none
  | fu + 1, .strct _ fields, _, item => pack_item_structF fu fields item
  | _ + 1, .scalar _, dflt, none =>
      match dflt with
      | none => some (.error .noDefault)
      | some v => some (.ok [v])
  | _ + 1, .scalar _, _, some (.int v) => some (.ok [v])
  | _ + 1, .scalar _, _, some (.arr _) => some (.error .typeError)
  | _ + 1, .scalar _, _, some (.dict _) => some (.error .typeError)
def pack_item_structF : Nat → List Fld → Option Value → Option (Except Err (List Int))
  | 0, _, _ => none
  | fu + 1, fields, item =>
      match item.getD (.dict []) with
      | .dict entries => pack_fieldsF fu fields entries
      | .int _ => some (.error .packValueError)
      | .arr _ => some (.error .packValueError)
def pack_fieldsF : Nat → List Fld → List (String × Value) → Option (Except Err (List Int))
  | 0, _, _ => none
  | _ + 1, [], _ => some (.ok [])
  | fu + 1, .mk nm fmt cnt dflt :: fs, entries =>
      match pack_dataF fu (.mk nm fmt cnt dflt) (lookupEntry entries nm) with
      | none => none
      | some (.error err) => some (.error err)
      | some (.ok toks) =>
        match pack_fieldsF fu fs entries with
        | none => none
        | some (.error err) => some (.error err)
        | some (.ok more) => some (.ok (toks ++ more))
end

/-- Fuel twin of Strct.pack. -/
def Strct.packF (fu : Nat) (e : Endian) (s : Strct) (data : Value) :
    Option (Except Err (List Nat)) :=
  match pack_item_structF fu s.fields (some data) with
  | none => none
  | some (.error err) => some (.error err)
  | some (.ok args) => some (structPackArgs e (fieldsCodes s.fields) args)

/-- Fuel twin of Strct.unpack. -/
def Strct.unpackF (fu : Nat) (e : Endian) (s : Strct) (bs : List Nat) :
    Option (Except Err Value) :=
  match structUnpackArgs e (fieldsCodes s.fields) bs with
  | .error err => some (.error err)
  | .ok args => unpack_item_structF fu s.fields args

/-- Fuel twin of unpack_from. -/
def unpack_fromF (fu : Nat) (e : Endian) (s : Strct) (buffer : List Nat) (offset : Nat) :
    Option (Except Err Value) :=
  match structUnpackFrom e s buffer offset with
  | .ok args => unpack_item_structF fu s.fields args
  | .error err =>
    if s.name != "WaveHeader2" && s.name != "WaveHeader5" then some (.error err)
    else
      let buffer2 := if buffer.length - offset < s.size
        then buffer ++ List.replicate (s.size + offset - buffer.length) 0
        else buffer
      match structUnpackFrom e s buffer2 offset with
      | .error err2 => some (.error err2)
      | .ok args2 =>
        match unpack_item_structF fu s.fields args2 with
        | none => none
        | some (.error err3) => some (.error err3)
        | some (.ok data) =>
          match getField data "npnts" with
          | some (.int n) =>
              if n == 0 then unpack_item_structF fu s.fields args2
              else some (.error (.assertNpnts n))
          | _ => some (.error .keyError)

/-- Fuel twin of load. -/
def loadF (fu : Nat) (native : Endian) (file : List Nat) :
    Option (Except Err (List Int × Value × Value)) :=
  match unpack_fromF fu native BinHeaderCommon (file.take BinHeaderCommon.size) 0 with
  | none => none
  | some (.error err) => some (.error err)
  | some (.ok vd) =>
    match getIntField vd "version" with
    | .error err => some (.error err)
    | .ok version0 =>
      match
        (if need_to_reorder_bytes version0 then
          match unpack_fromF fu (byte_order native (need_to_reorder_bytes version0))
              BinHeaderCommon (file.take BinHeaderCommon.size) 0 with
          | none => none
          | some (.error err) => some (.error err)
          | some (.ok vd2) => some (getIntField vd2 "version")
        else some (.ok version0) : Option (Except Err Int)) with
      | none => none
      | some (.error err) => some (.error err)
      | some (.ok version) =>
        match version_structs version with
        | .error err => some (.error err)
        | .ok (bin_struct, wave_struct, checkSumSize) =>
          match checksum (file.take (bin_struct.size + wave_struct.size))
              (byte_order native (need_to_reorder_bytes version0)) 0 checkSumSize with
          | .error err => some (.error err)
          | .ok c =>
            if c != 0 then some (.error (.checksumError c))
            else
              match unpack_fromF fu (byte_order native (need_to_reorder_bytes version0))
                  bin_struct (file.take (bin_struct.size + wave_struct.size)) 0 with
              | none => none
              | some (.error err) => some (.error err)
              | some (.ok bin_info) =>
                match unpack_fromF fu (byte_order native (need_to_reorder_bytes version0))
                    wave_struct (file.take (bin_struct.size + wave_struct.size))
                    bin_struct.size with
                | none => none
                | some (.error err) => some (.error err)
                | some (.ok wave_info) =>
                  match getIntField bin_info "wfmSize" with
                  | .error err => some (.error err)
                  | .ok wfmSize =>
                    match getIntField wave_info "type" with
                    | .error err => some (.error err)
                    | .ok typ =>
                      match getIntField wave_info "npnts" with
                      | .error err => some (.error err)
                      | .ok npnts =>
                        match
                          (if version == 5 then
                            match getIntListField wave_info "nDim" with
                            | .error err => Except.error err
                            | .ok nDim => Except.ok (shape5 nDim)
                          else Except.ok [npnts] : Except Err (List Int)) with
                        | .error err => some (.error err)
                        | .ok shape =>
                          match size_check typ npnts
                              (waveDataSizeOf version wfmSize wave_struct.size) with
                          | .error err => some (.error err)
                          | .ok _ =>
                            some (.ok
                              ((if typ == 0 then
                                  [waveDataSizeOf version wfmSize wave_struct.size]
                                else shape), bin_info, wave_info))

/-! ## Concrete example data for the claims -/

/-- A minimal version-1 wave file: version word 1, wfmSize word 65535 (the
int16 word -1, cancelling the version word in the checksum), and zero bytes
through the rest of the BinHeader1 + WaveHeader2 region. -/
def exFileC2 : List Nat := [1, 0, 255, 255] ++ List.replicate 130 0

/-- The same file with one byte changed inside the checksum region, giving a
nonzero checksum. -/
def exFileC2bad : List Nat := [1, 0, 255, 254] ++ List.replicate 130 0

/-- The value WaveHeader2 decodes from an all-zero byte region. -/
def waveHeader2ZeroDict : Value :=
  .dict [("type", .int 0), ("next", .int 0),
    ("bname", .arr (List.replicate 20 (.int 0))), ("whVersion", .int 0),
    ("srcFldr", .int 0), ("fileName", .int 0),
    ("dataUnits", .arr (List.replicate 4 (.int 0))),
    ("xUnits", .arr (List.replicate 4 (.int 0))), ("npnts", .int 0),
    ("aModified", .int 0), ("hsA", .int 0), ("hsB", .int 0),
    ("wModified", .int 0), ("swModified", .int 0), ("fsValid", .int 0),
    ("topFullScale", .int 0), ("botFullScale", .int 0), ("useBits", .int 0),
    ("kindBits", .int 0), ("formula", .int 0), ("depID", .int 0),
    ("creationDate", .int 0), ("wUnused", .arr (List.replicate 2 (.int 0))),
    ("modDate", .int 0), ("waveNoteH", .int 0),
    ("wData", .arr (List.replicate 4 (.int 0)))]

/-- What load returns on exFileC2: the text-wave shape [wfmSize - 126], the
BinHeader1 dict and the zero WaveHeader2 dict. -/
def exC2Result : List Int × Value × Value :=
  ([65409],
   .dict [("version", .int 1), ("wfmSize", .int 65535), ("checksum", .int 0)],
   waveHeader2ZeroDict)

/-- A 50-byte buffer whose npnts field (bytes 42-45 of WaveHeader2) decodes
to 1: short of the 126-byte WaveHeader2, with a nonzero point count. -/
def exBufC7bad : List Nat :=
  List.replicate 42 0 ++ [1, 0, 0, 0] ++ List.replicate 4 0

/-- The number of FolderStartRecords in a record list. -/
def countFolderStarts : List PRec → Nat
  | [] => 0
  | .folderStart _ :: rest => countFolderStarts rest + 1
  | .folderEnd :: rest => countFolderStarts rest
  | .wave _ :: rest => countFolderStarts rest
  | .variables _ :: rest => countFolderStarts rest
  | .other :: rest => countFolderStarts rest

/-- The number of FolderEndRecords in a record list. -/
def countFolderEnds : List PRec → Nat
  | [] => 0
  | .folderStart _ :: rest => countFolderEnds rest
  | .folderEnd :: rest => countFolderEnds rest + 1
  | .wave _ :: rest => countFolderEnds rest
  | .variables _ :: rest => countFolderEnds rest
  | .other :: rest => countFolderEnds rest

/-- The version value the load pipeline dispatches on (binarywave.py lines
263-272), recomputed from the raw file like fileChecksum: the native-order
probe, re-read in the corrected order when the low version byte is zero. -/
def loadVersion (native : Endian) (file : List Nat) : Option Int :=
  match unpack_dict_from native BinHeaderCommon (file.take BinHeaderCommon.size) 0 with
  | .error _ => none
  | .ok vd =>
    match getIntField vd "version" with
    | .error _ => none
    | .ok version0 =>
      if need_to_reorder_bytes version0 then
        match unpack_dict_from (byte_order native (need_to_reorder_bytes version0))
            BinHeaderCommon (file.take BinHeaderCommon.size) 0 with
        | .error _ => none
        | .ok vd2 =>
          match getIntField vd2 "version" with
          | .error _ => none
          | .ok v2 => some v2
      else some version0

/-- A minimal version-1 numeric wave file: version 1, wfmSize 130, a
checksum field of -134 cancelling the other header words, type 2 (float32),
npnts 1, and a 4-byte data region so the size check passes. -/
def exFileC3 : List Nat :=
  [1, 0] ++ [130, 0, 0, 0] ++ [122, 255] ++ [2, 0] ++ List.replicate 40 0 ++
  [1, 0, 0, 0] ++ List.replicate 80 0

/-- The BinHeader1 dict exFileC3 decodes to. -/
def exC3BinDict : Value :=
  .dict [("version", .int 1), ("wfmSize", .int 130), ("checksum", .int (-134))]

/-- The WaveHeader2 dict exFileC3 decodes to: type 2, npnts 1, zero
elsewhere. -/
def exC3WaveDict : Value :=
  .dict [("type", .int 2), ("next", .int 0),
    ("bname", .arr (List.replicate 20 (.int 0))), ("whVersion", .int 0),
    ("srcFldr", .int 0), ("fileName", .int 0),
    ("dataUnits", .arr (List.replicate 4 (.int 0))),
    ("xUnits", .arr (List.replicate 4 (.int 0))), ("npnts", .int 1),
    ("aModified", .int 0), ("hsA", .int 0), ("hsB", .int 0),
    ("wModified", .int 0), ("swModified", .int 0), ("fsValid", .int 0),
    ("topFullScale", .int 0), ("botFullScale", .int 0), ("useBits", .int 0),
    ("kindBits", .int 0), ("formula", .int 0), ("depID", .int 0),
    ("creationDate", .int 0), ("wUnused", .arr (List.replicate 2 (.int 0))),
    ("modDate", .int 0), ("waveNoteH", .int 0),
    ("wData", .arr (List.replicate 4 (.int 0)))]

/-! ## Round-trip support definitions -/

/-- The sequential packing of a list of items, one pack_item each. -/
def packItemsSeq (fmt : Fmt) (dflt : Option Int) : List Value → Except Err (List Int)
  | [] => .ok []
  | v :: vs => do
      let t ← Fmt.pack_item fmt dflt (some v)
      let m ← packItemsSeq fmt dflt vs
      .ok (t ++ m)

/-- The per-level conformance of a dims-counted value: at depth zero the
scalar itself, below an array of the declared length whose members conform at
the next level. -/
def conformsShape (fmt : Fmt) : List Nat → Value → Bool
  | [], v => conforms fmt v
  | d :: rest, v => conformsDims fmt d rest v

/-- The row-major scalar tokens of a dims-conforming value. -/
def dimsTokens : List Nat → Value → List Int
  | [], v => match v with | .int x => [x] | _ => []
  | _ :: rest, v => match v with
      | .arr vs => (vs.map (fun w => dimsTokens rest w)).flatten
      | _ => []

/-- The statement of the single-item round trip, at value size at most n. -/
def ItemP (n : Nat) : Prop :=
  ∀ (dflt : Option Int) (fmt : Fmt) (v : Value), sizeOf v ≤ n →
    wfFmt fmt = true → conforms fmt v = true →
    ∃ toks, Fmt.pack_item fmt dflt (some v) = .ok toks ∧
      List.Forall₂ (fun sc t => in_range sc t = true) (fmtCodes fmt) toks ∧
      unpack_item fmt toks = .ok v

/-- The statement of the repeated-item round trip, at list size at most n. -/
def ListP (n : Nat) : Prop :=
  ∀ (dflt : Option Int) (fmt : Fmt) (vs : List Value), sizeOf vs ≤ n →
    wfFmt fmt = true → conformsList fmt vs = true →
    ∃ toksL : List (List Int),
      packItemsSeq fmt dflt vs = .ok toksL.flatten ∧
      List.Forall₂ (fun v t =>
        List.Forall₂ (fun sc x => in_range sc x = true) (fmtCodes fmt) t ∧
        unpack_item fmt t = .ok v) vs toksL

/-- The statement of the field-list round trip, at entry-list size at most
n. -/
def StructP (n : Nat) : Prop :=
  ∀ (fields : List Fld) (entries : List (String × Value)), sizeOf entries ≤ n →
    (nodupNames (fieldNames fields) && wfFields fields) = true →
    conformsFields fields entries = true →
    ∃ args, pack_fields fields entries = .ok args ∧
      List.Forall₂ (fun sc t => in_range sc t = true) (fieldsCodes fields) args ∧
      ∀ rest, unpack_fields fields (args ++ rest) = .ok (entries, rest)

/-- An example Structure exercising every field kind: scalars, a fixed-size
array, a 2 x 2 multi-dimensional array, a nested Structure and a repeated
nested Structure. -/
def exSubC1 : List Fld :=
  [.mk "x" (.scalar .h) (.int 1) none,
   .mk "y" (.scalar .c) (.int 2) (some 0)]

def exFieldsC1 : List Fld :=
  [.mk "a" (.scalar .l) (.int 1) none,
   .mk "b" (.scalar .c) (.int 3) none,
   .mk "m" (.scalar .h) (.dims [2, 2]) none,
   .mk "s" (.strct "Sub" exSubC1) (.int 1) none,
   .mk "r" (.strct "Sub" exSubC1) (.int 2) none]

def exTreeC1 : Value :=
  .dict [("a", .int (-5)),
         ("b", .arr [.int 1, .int 2, .int 3]),
         ("m", .arr [.arr [.int 10, .int (-3)], .arr [.int 7, .int 0]]),
         ("s", .dict [("x", .int 100), ("y", .arr [.int 4, .int 5])]),
         ("r", .arr [.dict [("x", .int 1), ("y", .arr [.int 0, .int 0])],
                     .dict [("x", .int (-2)), ("y", .arr [.int 9, .int 8])]])]

/-! ## Basic lemmas for the scalar layer -/

theorem natToBytesLE_length (s n : Nat) : (natToBytesLE s n).length = s := by
  induction s generalizing n with
  | zero => rfl
  | succ s ih => simp [natToBytesLE, ih]

theorem bytesToNatLE_natToBytesLE (s n : Nat) :
    bytesToNatLE (natToBytesLE s n) = n % 256 ^ s := by
  induction s generalizing n with
  | zero => simp [natToBytesLE, bytesToNatLE, Nat.mod_one]
  | succ s ih =>
      simp only [natToBytesLE, bytesToNatLE, ih]
      rw [Nat.pow_succ, Nat.mul_comm (256 ^ s) 256, Nat.mod_mul]

theorem encodeScalar_length (e : Endian) (sc : SCode) (v : Int) :
    (encodeScalar e sc v).length = sc.size := by
  cases e <;> simp [encodeScalar, natToBytesLE_length]

theorem SCode.size_pos (sc : SCode) : 0 < sc.size := by
  cases sc <;> simp [SCode.size]

/-- Round trip at the scalar layer: decoding an encoded in-range value gives
the value back, in either byte order. -/
theorem decodeScalar_encodeScalar (e : Endian) (sc : SCode) (v : Int)
    (h : in_range sc v = true) :
    decodeScalar e sc (encodeScalar e sc v) = v := by
  have hs : 0 < sc.size := sc.size_pos
  have hWH : (2 : Nat) ^ (8 * sc.size) = 2 * 2 ^ (8 * sc.size - 1) := by
    have h8 : 8 * sc.size = (8 * sc.size - 1) + 1 := by omega
    rw [h8, pow_succ]
    exact Nat.mul_comm _ 2
  have hWi : ((2 : Int) ^ (8 * sc.size)) = ((2 ^ (8 * sc.size) : Nat) : Int) := by
    push_cast
    try ring
  have hHi : ((2 : Int) ^ (8 * sc.size - 1)) = ((2 ^ (8 * sc.size - 1) : Nat) : Int) := by
    push_cast
    try ring
  have hm_int : (((v % ((2 : Int) ^ (8 * sc.size))).toNat : Nat) : Int) =
      v % ((2 : Int) ^ (8 * sc.size)) :=
    Int.toNat_of_nonneg (Int.emod_nonneg v (by positivity))
  have hmW : (v % ((2 : Int) ^ (8 * sc.size))).toNat < 2 ^ (8 * sc.size) := by
    have h1 : v % ((2 : Int) ^ (8 * sc.size)) < (2 : Int) ^ (8 * sc.size) :=
      Int.emod_lt_of_pos v (by positivity)
    rw [hWi] at h1
    omega
  have hb : bytesToNatLE (natToBytesLE sc.size (v % ((2 : Int) ^ (8 * sc.size))).toNat) =
      (v % ((2 : Int) ^ (8 * sc.size))).toNat := by
    rw [bytesToNatLE_natToBytesLE]
    apply Nat.mod_eq_of_lt
    have h256 : (256 : Nat) ^ sc.size = 2 ^ (8 * sc.size) := by
      rw [show (256 : Nat) = 2 ^ 8 from rfl, ← pow_mul]
    rw [h256]
    exact hmW
  have hsplit : v % ((2 : Int) ^ (8 * sc.size)) = v ∨
      (v < 0 ∧ v % ((2 : Int) ^ (8 * sc.size)) = v + (2 : Int) ^ (8 * sc.size)) := by
    by_cases hrange : 0 ≤ v ∧ v < (2 : Int) ^ (8 * sc.size)
    · exact Or.inl (Int.emod_eq_of_lt hrange.1 hrange.2)
    · -- the in-range hypothesis leaves only the negative signed band
      have hneg : v < 0 ∧ -((2 : Int) ^ (8 * sc.size)) ≤ v := by
        by_cases hsg : sc.signed
        · have hr : -((2 : Int) ^ (8 * sc.size - 1)) ≤ v ∧ v < (2 : Int) ^ (8 * sc.size - 1) := by
            simpa [in_range, hsg] using h
          rw [hHi] at hr
          rw [hWi] at hrange ⊢
          omega
        · have hr : (0 : Int) ≤ v ∧ v < (2 : Int) ^ (8 * sc.size) := by
            simpa [in_range, hsg] using h
          exact absurd hr hrange
      refine Or.inr ⟨hneg.1, ?_⟩
      have h1 : (v + (2 : Int) ^ (8 * sc.size) * 1) % ((2 : Int) ^ (8 * sc.size)) =
          v % ((2 : Int) ^ (8 * sc.size)) :=
        Int.add_mul_emod_self_left v ((2 : Int) ^ (8 * sc.size)) 1
      rcases hneg with ⟨hv0, hvlo⟩
      rw [mul_one] at h1
      rw [← h1]
      exact Int.emod_eq_of_lt (by omega) (by omega)
  have hcore : (if sc.signed &&
        decide (2 ^ (8 * sc.size - 1) ≤
          bytesToNatLE (natToBytesLE sc.size (v % ((2 : Int) ^ (8 * sc.size))).toNat)) then
        (bytesToNatLE (natToBytesLE sc.size (v % ((2 : Int) ^ (8 * sc.size))).toNat) : Int) -
          2 ^ (8 * sc.size)
      else
        (bytesToNatLE (natToBytesLE sc.size (v % ((2 : Int) ^ (8 * sc.size))).toNat) : Int)) =
      v := by
    rw [hb]
    by_cases hsg : sc.signed
    · have hr : -((2 : Int) ^ (8 * sc.size - 1)) ≤ v ∧ v < (2 : Int) ^ (8 * sc.size - 1) := by
        simpa [in_range, hsg] using h
      rw [hHi] at hr
      rw [hsg, hWi]
      simp only [Bool.true_and, decide_eq_true_eq]
      rcases hsplit with heq | ⟨hneg, heq⟩ <;> rw [hWi] at heq <;> split <;> omega
    · have hr : (0 : Int) ≤ v ∧ v < (2 : Int) ^ (8 * sc.size) := by
        simpa [in_range, hsg] using h
      rw [hWi] at hr
      simp only [hsg, Bool.false_and, Bool.false_eq_true, if_false]
      rw [hWi]
      rcases hsplit with heq | ⟨hneg, heq⟩ <;> rw [hWi] at heq <;> omega
  cases e
  · simpa only [decodeScalar, encodeScalar] using hcore
  · simpa only [decodeScalar, encodeScalar, List.reverse_reverse] using hcore

theorem exbind_ok (a : α) (g : α → Except ε β) :
    (Except.ok a : Except ε α) >>= g = g a := rfl

theorem exbind_error (er : ε) (g : α → Except ε β) :
    (Except.error er : Except ε α) >>= g = .error er := rfl

mutual
theorem unpack_dataF_sound : ∀ fu fmt cnt items r,
    unpack_dataF fu fmt cnt items = some r → unpack_data fmt cnt items = r
  | 0, fmt, cnt, items, r => by
      intro h
      simp [unpack_dataF] at h
  | fu + 1, fmt, cnt, items, r => by
      intro h
      rw [unpack_data.eq_def]
      simp only [unpack_dataF] at h
      by_cases hlen : (items.length != cnt.itemCount * fmtUnit fmt) = true
      · rw [if_pos hlen] at h
        rw [if_pos hlen]
        exact Option.some.inj h
      · rw [if_neg hlen] at h
        rw [if_neg hlen]
        cases fmt with
        | scalar sc =>
            dsimp only at h ⊢
            cases cnt with
            | int n =>
                match n with
                | 0 => simpa using h
                | 1 =>
                    cases hh : (List.map Value.int items).head? with
                    | none => simpa [hh] using h
                    | some v => simpa [hh] using h
                | (k + 2) => simpa using h
            | dims ds => simpa using h
        | strct nm fields =>
            dsimp only at h ⊢
            rcases hcl : unpackClumpsF fu fields
                (if (fieldsTotal fields == 0) = true then []
                 else chunkFixed (fieldsTotal fields) cnt.itemCount items) with _ | res
            · rw [hcl] at h
              simp at h
            · rw [hcl] at h
              rw [unpackClumpsF_sound fu fields _ res hcl]
              cases res with
              | error err => simpa using h
              | ok unpacked =>
                  cases cnt with
                  | int n =>
                      match n with
                      | 0 => simpa using h
                      | 1 =>
                          cases hh : unpacked.head? with
                          | none => simpa [hh] using h
                          | some v => simpa [hh] using h
                      | (k + 2) => simpa using h
                  | dims ds => simpa using h
theorem unpackClumpsF_sound : ∀ fu fields cs r,
    unpackClumpsF fu fields cs = some r → unpackClumps fields cs = r
  | 0, fields, cs, r => by
      intro h
      simp [unpackClumpsF] at h
  | fu + 1, fields, [], r => by
      intro h
      rw [unpackClumps]
      exact Option.some.inj h
  | fu + 1, fields, c :: cs, r => by
      intro h
      rw [unpackClumps]
      simp only [unpackClumpsF] at h
      rcases h1 : unpack_item_structF fu fields c with _ | r1
      · rw [h1] at h
        simp at h
      · rw [h1] at h
        rw [unpack_item_structF_sound fu fields c r1 h1]
        cases r1 with
        | error err => rw [exbind_error]; simpa using h
        | ok v =>
            rw [exbind_ok]
            rcases h2 : unpackClumpsF fu fields cs with _ | r2
            · rw [h2] at h
              simp at h
            · rw [h2] at h
              rw [unpackClumpsF_sound fu fields cs r2 h2]
              cases r2 with
              | error err => rw [exbind_error]; simpa using h
              | ok vs => rw [exbind_ok]; simpa using h
theorem unpack_item_structF_sound : ∀ fu fields args r,
    unpack_item_structF fu fields args = some r → unpack_item_struct fields args = r
  | 0, fields, args, r => by
      intro h
      simp [unpack_item_structF] at h
  | fu + 1, fields, args, r => by
      intro h
      rw [unpack_item_struct.eq_def]
      simp only [unpack_item_structF] at h
      rcases h1 : unpack_fieldsF fu fields args with _ | r1
      · rw [h1] at h
        simp at h
      · rw [h1] at h
        rw [unpack_fieldsF_sound fu fields args r1 h1]
        cases r1 with
        | error err => simpa using h
        | ok pr =>
            rcases pr with ⟨entries, rest⟩
            cases rest with
            | nil => simpa using h
            | cons x xs => simpa using h
theorem unpack_fieldsF_sound : ∀ fu fields args r,
    unpack_fieldsF fu fields args = some r → unpack_fields fields args = r
  | 0, fields, args, r => by
      intro h
      simp [unpack_fieldsF] at h
  | fu + 1, [], args, r => by
      intro h
      rw [unpack_fields]
      exact Option.some.inj h
  | fu + 1, .mk nm fmt cnt dflt :: fs, args, r => by
      intro h
      rw [unpack_fields]
      simp only [unpack_fieldsF] at h
      by_cases hlen : (args.length < cnt.itemCount * fmtUnit fmt)
      · rw [if_pos hlen] at h
        rw [if_pos hlen]
        exact Option.some.inj h
      · rw [if_neg hlen] at h
        rw [if_neg hlen]
        rcases h1 : unpack_dataF fu fmt cnt (args.take (cnt.itemCount * fmtUnit fmt))
            with _ | r1
        · rw [h1] at h
          simp at h
        · rw [h1] at h
          rw [unpack_dataF_sound fu fmt cnt _ r1 h1]
          cases r1 with
          | error err => rw [exbind_error]; simpa using h
          | ok v =>
              rw [exbind_ok]
              rcases h2 : unpack_fieldsF fu fs (args.drop (cnt.itemCount * fmtUnit fmt))
                  with _ | r2
              · rw [h2] at h
                simp at h
              · rw [h2] at h
                rw [unpack_fieldsF_sound fu fs _ r2 h2]
                cases r2 with
                | error err => rw [exbind_error]; simpa using h
                | ok pr =>
                    rcases pr with ⟨entries, rest⟩
                    rw [exbind_ok]
                    simpa using h
end

mutual
theorem pack_dataF_sound : ∀ fu fld data r,
    pack_dataF fu fld data = some r → Fld.pack_data fld data = r
  | 0, fld, data, r => by
      intro h
      simp [pack_dataF] at h
  | fu + 1, .mk nm fmt cnt dflt, data, r => by
      intro h
      rw [Fld.pack_data]
      simp only [pack_dataF] at h
      by_cases h1 : (cnt.itemCount > 1)
      · rw [if_pos h1] at h ⊢
        exact pack_indexedF_sound fu fmt dflt _ _ r h
      · rw [if_neg h1] at h ⊢
        by_cases h2 : (cnt.itemCount == 1) = true
        · rw [if_pos h2] at h ⊢
          exact pack_itemF_sound fu fmt dflt data r h
        · rw [if_neg h2] at h ⊢
          exact Option.some.inj h
theorem pack_indexedF_sound : ∀ fu fmt dflt d idxs r,
    pack_indexedF fu fmt dflt d idxs = some r → pack_indexed fmt dflt d idxs = r
  | 0, fmt, dflt, d, idxs, r => by
      intro h
      simp [pack_indexedF] at h
  | fu + 1, fmt, dflt, d, [], r => by
      intro h
      rw [pack_indexed]
      exact Option.some.inj h
  | fu + 1, fmt, dflt, d, idx :: rest, r => by
      intro h
      rw [pack_indexed]
      simp only [pack_indexedF] at h
      rcases hg : indexGet d idx with err | item
      · rw [hg] at h
        rw [exbind_error]
        simpa using h
      · rw [hg] at h
        dsimp only at h
        rw [exbind_ok]
        rcases h1 : pack_itemF fu fmt dflt item with _ | r1
        · rw [h1] at h
          simp at h
        · rw [h1] at h
          rw [pack_itemF_sound fu fmt dflt item r1 h1]
          cases r1 with
          | error err => rw [exbind_error]; simpa using h
          | ok toks =>
              rw [exbind_ok]
              rcases h2 : pack_indexedF fu fmt dflt d rest with _ | r2
              · rw [h2] at h
                simp at h
              · rw [h2] at h
                rw [pack_indexedF_sound fu fmt dflt d rest r2 h2]
                cases r2 with
                | error err => rw [exbind_error]; simpa using h
                | ok more => rw [exbind_ok]; simpa using h
theorem pack_itemF_sound : ∀ fu fmt dflt item r,
    pack_itemF fu fmt dflt item = some r → Fmt.pack_item fmt dflt item = r
  | 0, fmt, dflt, item, r => by
      intro h
      simp [pack_itemF] at h
  | fu + 1, .strct nm fields, dflt, item, r => by
      intro h
      rw [Fmt.pack_item]
      exact pack_item_structF_sound fu fields item r h
  | fu + 1, .scalar sc, dflt, none, r => by
      intro h
      rw [Fmt.pack_item.eq_def]
      simp only [pack_itemF] at h
      cases dflt with
      | none => simpa using h
      | some v => simpa using h
  | fu + 1, .scalar sc, dflt, some (.int v), r => by
      intro h
      rw [Fmt.pack_item]
      exact Option.some.inj h
  | fu + 1, .scalar sc, dflt, some (.arr vs), r => by
      intro h
      rw [Fmt.pack_item]
      exact Option.some.inj h
  | fu + 1, .scalar sc, dflt, some (.dict es), r => by
      intro h
      rw [Fmt.pack_item]
      exact Option.some.inj h
theorem pack_item_structF_sound : ∀ fu fields item r,
    pack_item_structF fu fields item = some r → pack_item_struct fields item = r
  | 0, fields, item, r => by
      intro h
      simp [pack_item_structF] at h
  | fu + 1, fields, item, r => by
      intro h
      rw [pack_item_struct.eq_def]
      simp only [pack_item_structF] at h
      rcases hi : item.getD (.dict []) with v | vs | entries
      · rw [hi] at h
        simpa using h
      · rw [hi] at h
        simpa using h
      · rw [hi] at h
        exact pack_fieldsF_sound fu fields entries r h
theorem pack_fieldsF_sound : ∀ fu fields entries r,
    pack_fieldsF fu fields entries = some r → pack_fields fields entries = r
  | 0, fields, entries, r => by
      intro h
      simp [pack_fieldsF] at h
  | fu + 1, [], entries, r => by
      intro h
      rw [pack_fields]
      exact Option.some.inj h
  | fu + 1, .mk nm fmt cnt dflt :: fs, entries, r => by
      intro h
      rw [pack_fields]
      simp only [pack_fieldsF] at h
      rcases h1 : pack_dataF fu (.mk nm fmt cnt dflt) (lookupEntry entries nm) with _ | r1
      · rw [h1] at h
        simp at h
      · rw [h1] at h
        rw [pack_dataF_sound fu (.mk nm fmt cnt dflt) (lookupEntry entries nm) r1 h1]
        cases r1 with
        | error err => rw [exbind_error]; simpa using h
        | ok toks =>
            rw [exbind_ok]
            rcases h2 : pack_fieldsF fu fs entries with _ | r2
            · rw [h2] at h
              simp at h
            · rw [h2] at h
              rw [pack_fieldsF_sound fu fs entries r2 h2]
              cases r2 with
              | error err => rw [exbind_error]; simpa using h
              | ok more => rw [exbind_ok]; simpa using h
end

theorem packF_sound (fu : Nat) (e : Endian) (s : Strct) (data : Value)
    (r : Except Err (List Nat)) (h : Strct.packF fu e s data = some r) :
    Strct.pack e s data = r := by
  rw [Strct.pack]
  rw [Strct.packF] at h
  rcases h1 : pack_item_structF fu s.fields (some data) with _ | r1
  · rw [h1] at h
    simp at h
  · rw [h1] at h
    rw [pack_item_structF_sound fu s.fields (some data) r1 h1]
    cases r1 with
    | error err => rw [exbind_error]; simpa using h
    | ok args => rw [exbind_ok]; simpa using h

theorem unpackF_sound (fu : Nat) (e : Endian) (s : Strct) (bs : List Nat)
    (r : Except Err Value) (h : Strct.unpackF fu e s bs = some r) :
    Strct.unpack e s bs = r := by
  rw [Strct.unpack]
  rw [Strct.unpackF] at h
  rcases h1 : structUnpackArgs e (fieldsCodes s.fields) bs with err | args
  · rw [h1] at h
    rw [exbind_error]
    simpa using h
  · rw [h1] at h
    rw [exbind_ok]
    exact unpack_item_structF_sound fu s.fields args r h

theorem unpack_fromF_sound (fu : Nat) (e : Endian) (s : Strct) (buffer : List Nat)
    (offset : Nat) (r : Except Err Value) (h : unpack_fromF fu e s buffer offset = some r) :
    unpack_from e s buffer offset = r := by
  rw [unpack_from]
  rw [unpack_fromF] at h
  rcases h1 : structUnpackFrom e s buffer offset with err | args
  · rw [h1] at h
    dsimp only at h ⊢
    by_cases hn : (s.name != "WaveHeader2" && s.name != "WaveHeader5") = true
    · rw [if_pos hn] at h ⊢
      exact Option.some.inj h
    · rw [if_neg hn] at h ⊢
      rcases h2 : structUnpackFrom e s
          (if buffer.length - offset < s.size
           then buffer ++ List.replicate (s.size + offset - buffer.length) 0
           else buffer) offset with err2 | args2
      · rw [h2] at h
        simpa using h
      · rw [h2] at h
        dsimp only at h ⊢
        rcases h3 : unpack_item_structF fu s.fields args2 with _ | r3
        · rw [h3] at h
          simp at h
        · rw [h3] at h
          rw [unpack_item_structF_sound fu s.fields args2 r3 h3]
          cases r3 with
          | error err3 => simpa using h
          | ok data =>
              dsimp only at h ⊢
              rcases h4 : getField data "npnts" with _ | v4
              · rw [h4] at h
                simpa using h
              · rw [h4] at h
                cases v4 with
                | int n =>
                    dsimp only at h ⊢
                    by_cases h5 : (n == 0) = true
                    · rw [if_pos h5] at h ⊢
                      simpa using h
                    · rw [if_neg h5] at h ⊢
                      exact Option.some.inj h
                | arr vs => simpa using h
                | dict es => simpa using h
  · rw [h1] at h
    dsimp only at h ⊢
    exact unpack_item_structF_sound fu s.fields args r h

theorem unpack_dict_fromF_sound (fu : Nat) (e : Endian) (s : Strct) (buffer : List Nat)
    (offset : Nat) (r : Except Err Value) (h : unpack_fromF fu e s buffer offset = some r) :
    unpack_dict_from e s buffer offset = r := by
  rw [unpack_dict_from]
  exact unpack_fromF_sound fu e s buffer offset r h

theorem expure (a : α) : (pure a : Except ε α) = .ok a := rfl

/-! ## Soundness of the load twin -/

theorem loadTail_sound (fu : Nat) (bo : Endian) (file : List Nat) (version : Int)
    (r : Except Err (List Int × Value × Value))
    (h : (match version_structs version with
      | .error err => some (.error err)
      | .ok (bin_struct, wave_struct, checkSumSize) =>
        match checksum (file.take (bin_struct.size + wave_struct.size)) bo 0 checkSumSize with
        | .error err => some (.error err)
        | .ok c =>
          if c != 0 then some (.error (.checksumError c))
          else
            match unpack_fromF fu bo bin_struct
                (file.take (bin_struct.size + wave_struct.size)) 0 with
            | none => none
            | some (.error err) => some (.error err)
            | some (.ok bin_info) =>
              match unpack_fromF fu bo wave_struct
                  (file.take (bin_struct.size + wave_struct.size)) bin_struct.size with
              | none => none
              | some (.error err) => some (.error err)
              | some (.ok wave_info) =>
                match getIntField bin_info "wfmSize" with
                | .error err => some (.error err)
                | .ok wfmSize =>
                  match getIntField wave_info "type" with
                  | .error err => some (.error err)
                  | .ok typ =>
                    match getIntField wave_info "npnts" with
                    | .error err => some (.error err)
                    | .ok npnts =>
                      match
                        (if version == 5 then
                          match getIntListField wave_info "nDim" with
                          | .error err => Except.error err
                          | .ok nDim => Except.ok (shape5 nDim)
                        else Except.ok [npnts] : Except Err (List Int)) with
                      | .error err => some (.error err)
                      | .ok shape =>
                        match size_check typ npnts
                            (waveDataSizeOf version wfmSize wave_struct.size) with
                        | .error err => some (.error err)
                        | .ok _ =>
                          some (.ok
                            ((if typ == 0 then
                                [waveDataSizeOf version wfmSize wave_struct.size]
                              else shape), bin_info, wave_info))) = some r) :
    (do
      let (bin_struct, wave_struct, checkSumSize) ← version_structs version
      let b := file.take (bin_struct.size + wave_struct.size)
      let c ← checksum b bo 0 checkSumSize
      if c != 0 then Except.error (.checksumError c)
      else do
        let bin_info ← unpack_dict_from bo bin_struct b 0
        let wave_info ← unpack_dict_from bo wave_struct b bin_struct.size
        let wfmSize ← getIntField bin_info "wfmSize"
        let waveDataSize := waveDataSizeOf version wfmSize wave_struct.size
        let typ ← getIntField wave_info "type"
        let npnts ← getIntField wave_info "npnts"
        let shape ←
          if version == 5 then do
            let nDim ← getIntListField wave_info "nDim"
            pure (shape5 nDim)
          else pure [npnts]
        let _ ← size_check typ npnts waveDataSize
        let shape := if typ == 0 then [waveDataSize] else shape
        (.ok (shape, bin_info, wave_info) :
          Except Err (List Int × Value × Value))) = r := by
  rcases h5 : version_structs version with err | triple
  · rw [h5] at h; simp only [exbind_error]; try dsimp only at h; simpa using h
  rw [h5] at h
  rcases triple with ⟨bin_struct, wave_struct, checkSumSize⟩
  simp only [exbind_ok]
  try dsimp only at h
  rcases h6 : checksum (file.take (bin_struct.size + wave_struct.size)) bo 0 checkSumSize with
    err | c
  · rw [h6] at h; simp only [exbind_error]; try dsimp only at h; simpa using h
  rw [h6] at h
  simp only [exbind_ok]
  try dsimp only at h
  rcases hc : (c != 0) with _ | _
  · rw [hc] at h
    simp only [Bool.false_eq_true, if_false] at h ⊢
    rcases h7 : unpack_fromF fu bo bin_struct (file.take (bin_struct.size + wave_struct.size)) 0
      with _ | bres
    · rw [h7] at h; simp at h
    rw [h7] at h
    rw [unpack_dict_fromF_sound fu bo bin_struct
      (file.take (bin_struct.size + wave_struct.size)) 0 bres h7]
    rcases bres with err | bin_info
    · simp only [exbind_error]; try dsimp only at h; simpa using h
    simp only [exbind_ok]
    try dsimp only at h
    rcases h8 : unpack_fromF fu bo wave_struct (file.take (bin_struct.size + wave_struct.size))
        bin_struct.size with _ | wres
    · rw [h8] at h; simp at h
    rw [h8] at h
    rw [unpack_dict_fromF_sound fu bo wave_struct
      (file.take (bin_struct.size + wave_struct.size)) bin_struct.size wres h8]
    rcases wres with err | wave_info
    · simp only [exbind_error]; try dsimp only at h; simpa using h
    simp only [exbind_ok]
    try dsimp only at h
    rcases h9 : getIntField bin_info "wfmSize" with err | wfmSize
    · rw [h9] at h; simp only [exbind_error]; try dsimp only at h; simpa using h
    rw [h9] at h
    simp only [exbind_ok]
    try dsimp only at h
    rcases h10 : getIntField wave_info "type" with err | typ
    · rw [h10] at h; simp only [exbind_error]; try dsimp only at h; simpa using h
    rw [h10] at h
    simp only [exbind_ok]
    try dsimp only at h
    rcases h11 : getIntField wave_info "npnts" with err | npnts
    · rw [h11] at h; simp only [exbind_error]; try dsimp only at h; simpa using h
    rw [h11] at h
    simp only [exbind_ok]
    try dsimp only at h
    rcases hv : (version == 5) with _ | _
    · rw [hv] at h
      simp only [Bool.false_eq_true, if_false] at h ⊢
      simp only [expure, exbind_ok]
      try dsimp only at h
      rcases h13 : size_check typ npnts (waveDataSizeOf version wfmSize wave_struct.size) with
        err | u
      · rw [h13] at h; simp only [exbind_error]; try dsimp only at h; simpa using h
      rw [h13] at h
      simp only [exbind_ok]
      try dsimp only at h
      simpa using h
    · rw [hv] at h
      simp only [if_true] at h ⊢
      try dsimp only at h
      rcases h12 : getIntListField wave_info "nDim" with err | nDim
      · rw [h12] at h; simp only [exbind_error]; try dsimp only at h; simpa using h
      rw [h12] at h
      simp only [exbind_ok, expure]
      try dsimp only at h
      rcases h13 : size_check typ npnts (waveDataSizeOf version wfmSize wave_struct.size) with
        err | u
      · rw [h13] at h; simp only [exbind_error]; try dsimp only at h; simpa using h
      rw [h13] at h
      simp only [exbind_ok]
      try dsimp only at h
      simpa using h
  · rw [hc] at h
    simp only [if_true] at h ⊢
    simpa using h

theorem loadF_sound (fu : Nat) (native : Endian) (file : List Nat)
    (r : Except Err (List Int × Value × Value)) (h : loadF fu native file = some r) :
    load native file = r := by
  simp only [load]
  simp only [loadF] at h
  rcases h1 : unpack_fromF fu native BinHeaderCommon (file.take BinHeaderCommon.size) 0 with
    _ | vres
  · rw [h1] at h; simp at h
  rw [h1] at h
  rw [unpack_dict_fromF_sound fu native BinHeaderCommon (file.take BinHeaderCommon.size) 0
    vres h1]
  rcases vres with err | vd
  · simp only [exbind_error]; try dsimp only at h; simpa using h
  simp only [exbind_ok]
  try dsimp only at h
  rcases h2 : getIntField vd "version" with err | version0
  · rw [h2] at h; simp only [exbind_error]; try dsimp only at h; simpa using h
  rw [h2] at h
  simp only [exbind_ok]
  try dsimp only at h
  rcases hr : need_to_reorder_bytes version0 with _ | _
  · rw [hr] at h
    simp only [Bool.false_eq_true, if_false] at h ⊢
    simp only [expure, exbind_ok]
    try dsimp only at h
    exact loadTail_sound fu (byte_order native false) file version0 r h
  · rw [hr] at h
    simp only [if_true] at h ⊢
    rcases h3 : unpack_fromF fu (byte_order native true) BinHeaderCommon
        (file.take BinHeaderCommon.size) 0 with _ | pres
    · rw [h3] at h; simp at h
    rw [h3] at h
    rw [unpack_dict_fromF_sound fu (byte_order native true) BinHeaderCommon
      (file.take BinHeaderCommon.size) 0 pres h3]
    rcases pres with err | vd2
    · simp only [exbind_error]; try dsimp only at h; simpa using h
    simp only [exbind_ok]
    try dsimp only at h
    rcases h4 : getIntField vd2 "version" with err | version
    · rw [h4] at h; simp only [exbind_error]; try dsimp only at h; simpa using h
    rw [h4] at h
    simp only [exbind_ok]
    try dsimp only at h
    exact loadTail_sound fu (byte_order native true) file version r h

/-! ## Claims C3, C4, C5, C6, C9, C10 -/

/-- C3 counterexample: on nDim = [5, 0, 3, 0] the source shape rule keeps
every strictly positive entry, giving [5, 3], while the claimed rule of
nonzero leading entries stops at the first zero and gives [5]. -/
theorem C3_shape_counterexample :
    shape5 [5, 0, 3, 0] = [5, 3] ∧ shape5_claim [5, 0, 3, 0] = [5] ∧
    shape5 [5, 0, 3, 0] ≠ shape5_claim [5, 0, 3, 0] := by decide

/-- C4: for any two bytes of a version word, the reorder predicate fires
exactly when the low-order byte is zero in either decoding order, the
predicate is version & 0xFF == 0 on every int, and the effective byte order
is the native order flipped when reordering is needed, the native order
otherwise. -/
theorem C4_byte_order_detection (native : Endian) (b0 b1 : Nat)
    (h0 : b0 < 256) (h1 : b1 < 256) :
    (need_to_reorder_bytes (decodeScalar .little .h [b0, b1]) = true ↔ b0 = 0) ∧
    (need_to_reorder_bytes (decodeScalar .big .h [b0, b1]) = true ↔ b1 = 0) ∧
    (∀ v : Int, need_to_reorder_bytes v = (v % 256 == 0)) ∧
    byte_order native true = native.flip ∧
    byte_order native false = native := by
  refine ⟨?_, ?_, fun v => rfl, ?_, ?_⟩
  · simp only [need_to_reorder_bytes, decodeScalar, bytesToNatLE, SCode.signed,
      SCode.size, beq_iff_eq]
    split
    · push_cast; omega
    · push_cast; omega
  · simp only [need_to_reorder_bytes, decodeScalar, bytesToNatLE, SCode.signed,
      SCode.size, beq_iff_eq, List.reverse_cons, List.reverse_nil]
    split
    · push_cast; omega
    · push_cast; omega
  · cases native <;> rfl
  · cases native <;> rfl

/-- C4 witness at native little, bytes [0, 2]. -/
theorem C4_byte_order_detection_witness :
    (need_to_reorder_bytes (decodeScalar .little .h [0, 2]) = true ↔
      (0 : Nat) = 0) ∧
    (need_to_reorder_bytes (decodeScalar .big .h [0, 2]) = true ↔
      (2 : Nat) = 0) ∧
    (∀ v : Int, need_to_reorder_bytes v = (v % 256 == 0)) ∧
    byte_order .little true = Endian.flip .little ∧
    byte_order .little false = .little :=
  C4_byte_order_detection .little 0 2 (by decide) (by decide)

/-- C5: the spec example record sequence builds exactly the claimed tree,
with the wave and the variables records accumulated into the reserved list
keys of the innermost open folder, and any record of another kind leaves the
reduction state unchanged. -/
theorem C5_folder_tree_example :
    packed_filesystem [.folderStart "A", .wave 1, .folderStart "B",
        .variables 1, .folderEnd, .folderEnd] =
      some [("root", .dir [("A", .dir [(":waves", .recs [.wave 1]),
        ("B", .dir [(":variables", .recs [.variables 1])])])])] ∧
    (∀ rest n d st saved,
      packedLoop (.other :: rest) ((n, d) :: st) saved =
        packedLoop rest ((n, d) :: st) saved) := by
  exact ⟨rfl, fun rest n d st saved => rfl⟩

/-- C6 counterexample: type 4 (single-precision float, in the type table)
with npnts = 0 and a nonzero data byte count fails the size check, so the
claimed npnts == 0 exemption does not hold for types in the table. -/
theorem C6_size_check_counterexample :
    size_check 4 0 4 = .error .sizeMismatch := rfl

/-- C6 amended: for a nonzero type code in the type table the size check
fails exactly when the data byte count differs from npnts times the element
size, with no npnts == 0 exemption; the exemption only covers nonzero type
codes absent from the table, where npnts = 0 passes and npnts mismatching 0
is a KeyError. -/
theorem C6_size_check_amended (type npnts waveDataSize : Int) (ht : type ≠ 0) :
    (∀ isz, TYPE_TABLE_itemsize type = some isz →
      (size_check type npnts waveDataSize = .error .sizeMismatch ↔
        waveDataSize ≠ npnts * (isz : Int)) ∧
      (waveDataSize = npnts * (isz : Int) →
        size_check type npnts waveDataSize = .ok isz)) ∧
    (TYPE_TABLE_itemsize type = none →
      (npnts = 0 → size_check type npnts waveDataSize = .ok 1) ∧
      (npnts ≠ 0 → size_check type npnts waveDataSize = .error .keyError)) := by
  have htb : (type == 0) = false := by simpa using ht
  constructor
  · intro isz hisz
    simp only [size_check, htb, Bool.false_eq_true, if_false, hisz,
      Option.isSome_some, Bool.true_or, if_true]
    constructor
    · constructor
      · intro h
        intro heq
        rw [if_pos (by simpa using heq)] at h
        cases h
      · intro hne
        rw [if_neg (by simpa using hne)]
    · intro heq
      rw [if_pos (by simpa using heq)]
  · intro hnone
    simp only [size_check, htb, Bool.false_eq_true, if_false, hnone,
      Option.isSome_none, Bool.false_or]
    constructor
    · intro h0
      rw [if_neg (by simp [h0])]
    · intro hne
      rw [if_pos (by simpa using hne)]

/-- C6 amended witness at type 4, npnts 2, byte count 16 (element size 8). -/
theorem C6_size_check_amended_witness :
    size_check 4 2 16 = .ok 8 :=
  (((C6_size_check_amended 4 2 16 (by decide)).1 8 rfl).2 (by decide))

/-- C9 counterexample: a record stream that is a single FolderEnd pops the
seeded root, yet the reduction still returns the root tree instead of
failing, so one more FolderEnd than FolderStart does not by itself prevent a
tree from being returned. -/
theorem C9_unbalanced_counterexample :
    packed_filesystem [.folderEnd] = some [("root", .dir [])] := rfl

/-- The loop returns none as soon as a record follows a state whose folder
stack has emptied: an excess of folder ends over the stack depth inside a
proper prefix forces a crash on the next record. -/
theorem packedLoop_excess_none (p : List PRec) :
    ∀ tail stack saved, tail ≠ [] →
      countFolderStarts p + stack.length ≤ countFolderEnds p →
      packedLoop (p ++ tail) stack saved = none := by
  induction p with
  | nil =>
    intro tail stack saved htail hcount
    simp only [countFolderStarts, countFolderEnds, Nat.le_zero] at hcount
    have hstack : stack = [] := by
      cases stack
      · rfl
      · simp at hcount
    subst hstack
    rcases tail with _ | ⟨r, rest⟩
    · cases htail rfl
    · rfl
  | cons r p ih =>
    intro tail stack saved htail hcount
    rcases stack with _ | ⟨⟨n, d⟩, st⟩
    · rfl
    rcases r with name | _ | w | vr | _
    · simp only [countFolderStarts, countFolderEnds, List.length_cons] at hcount
      simp only [List.cons_append, packedLoop]
      exact ih tail _ saved htail
        (by simp only [List.length_cons]; omega)
    · simp only [countFolderStarts, countFolderEnds, List.length_cons] at hcount
      simp only [List.cons_append, packedLoop]
      rcases st with _ | ⟨⟨pn, pd⟩, ss⟩
      · exact ih tail [] _ htail (by simp only [List.length_nil]; omega)
      · exact ih tail _ saved htail
          (by simp only [List.length_cons] at hcount ⊢; omega)
    · simp only [countFolderStarts, countFolderEnds, List.length_cons] at hcount
      simp only [List.cons_append, packedLoop]
      rcases appendRec d ":waves" (.wave w) with _ | d2
      · rfl
      · exact ih tail _ saved htail (by simp only [List.length_cons]; omega)
    · simp only [countFolderStarts, countFolderEnds, List.length_cons] at hcount
      simp only [List.cons_append, packedLoop]
      rcases appendRec d ":variables" (.variables vr) with _ | d2
      · rfl
      · exact ih tail _ saved htail (by simp only [List.length_cons]; omega)
    · simp only [countFolderStarts, countFolderEnds, List.length_cons] at hcount
      simp only [List.cons_append, packedLoop]
      exact ih tail _ saved htail (by simp only [List.length_cons]; omega)

/-- C9 amended: popping past the root does not fail on its own; the crash
surfaces only when another record follows.  Whenever some proper prefix of
the records holds more folder ends than folder starts, the reduction returns
no tree. -/
theorem C9_unbalanced_amended (p tail : List PRec) (htail : tail ≠ [])
    (hcount : countFolderStarts p + 1 ≤ countFolderEnds p) :
    packed_filesystem (p ++ tail) = none := by
  have := packedLoop_excess_none p tail [("root", [])] none htail
    (by simpa using hcount)
  simp only [packed_filesystem, this]

/-- C9 amended witness: FolderEnd followed by any further record fails. -/
theorem C9_unbalanced_amended_witness :
    packed_filesystem [PRec.folderEnd, PRec.other] = none :=
  C9_unbalanced_amended [.folderEnd] [.other] (by decide) (by decide)

/-- C10: the checksum reads only the 2 * (numbytes / 2) bytes of the whole
16-bit words of the region, so any two buffers equal on that prefix give
equal checksums; in particular a trailing odd byte is ignored. -/
theorem C10_checksum_trailing_byte (e : Endian) (old : Int) (n : Nat)
    (b1 b2 : List Nat) (h : b1.take (2 * (n / 2)) = b2.take (2 * (n / 2))) :
    checksum b1 e old n = checksum b2 e old n := by
  have hlen : min (2 * (n / 2)) b1.length = min (2 * (n / 2)) b2.length := by
    have := congrArg List.length h
    simpa [List.length_take] using this
  have hget : ∀ j, j < 2 * (n / 2) → b1.getD j 0 = b2.getD j 0 := by
    intro j hj
    have e1 : (b1.take (2 * (n / 2))).getD j 0 = b1.getD j 0 := by
      simp [List.getD, List.getElem?_take, hj]
    have e2 : (b2.take (2 * (n / 2))).getD j 0 = b2.getD j 0 := by
      simp [List.getD, List.getElem?_take, hj]
    rw [← e1, ← e2, h]
  simp only [checksum]
  by_cases hc : b2.length < 2 * (n / 2)
  · have hc1 : b1.length < 2 * (n / 2) := by omega
    rw [if_pos hc1, if_pos hc]
  · have hc1 : ¬ b1.length < 2 * (n / 2) := by omega
    rw [if_neg hc1, if_neg hc]
    have hmap : (List.range (n / 2)).map
        (fun i => decodeScalar e .h [b1.getD (2 * i) 0, b1.getD (2 * i + 1) 0]) =
       (List.range (n / 2)).map
        (fun i => decodeScalar e .h [b2.getD (2 * i) 0, b2.getD (2 * i + 1) 0]) := by
      apply List.map_congr_left
      intro i hi
      have hi2 : i < n / 2 := List.mem_range.mp hi
      rw [hget (2 * i) (by omega), hget (2 * i + 1) (by omega)]
    rw [hmap]

/-- C10 witness: buffers [1, 2, 3] and [1, 2, 7] differ only in the trailing
byte of the odd region numbytes = 3 and give equal checksums. -/
theorem C10_checksum_trailing_byte_witness :
    checksum [1, 2, 3] .little 0 3 = checksum [1, 2, 7] .little 0 3 :=
  C10_checksum_trailing_byte .little 0 3 [1, 2, 3] [1, 2, 7] (by decide)

/-- Whenever load succeeds, the checksum it validated was zero. -/
theorem load_ok_fileChecksum (native : Endian) (file : List Nat)
    (r : List Int × Value × Value) (h : load native file = .ok r) :
    fileChecksum native file = some 0 := by
  simp only [load] at h
  simp only [fileChecksum]
  rcases h1 : unpack_dict_from native BinHeaderCommon (file.take BinHeaderCommon.size) 0
    with err | vd
  · rw [h1] at h
    simp only [exbind_error] at h
    exact absurd h (by simp)
  rw [h1] at h
  simp only [exbind_ok] at h
  try dsimp only at h ⊢
  rcases h2 : getIntField vd "version" with err | version0
  · rw [h2] at h
    simp only [exbind_error] at h
    exact absurd h (by simp)
  rw [h2] at h
  simp only [exbind_ok] at h
  try dsimp only at h ⊢
  rcases hr : need_to_reorder_bytes version0 with _ | _
  · rw [hr] at h
    simp only [Bool.false_eq_true, if_false] at h ⊢
    simp only [expure, exbind_ok] at h
    try dsimp only at h ⊢
    rcases h5 : version_structs version0 with err | ⟨bin_struct, wave_struct, cks⟩
    · rw [h5] at h
      simp only [exbind_error] at h
      exact absurd h (by simp)
    rw [h5] at h
    simp only [exbind_ok] at h
    try dsimp only at h ⊢
    rcases h6 : checksum (file.take (bin_struct.size + wave_struct.size))
        (byte_order native false) 0 cks with err | c
    · rw [h6] at h
      simp only [exbind_error] at h
      exact absurd h (by simp)
    rw [h6] at h
    simp only [exbind_ok] at h
    try dsimp only at h ⊢
    rcases hc : (c != 0) with _ | _
    · have hc0 : c = 0 := by simpa using hc
      rw [hc0]
    · rw [hc] at h
      simp only [if_true] at h
      exact absurd h (by simp)
  · rw [hr] at h
    simp only [if_true] at h ⊢
    rcases h3 : unpack_dict_from (byte_order native true) BinHeaderCommon
        (file.take BinHeaderCommon.size) 0 with err | vd2
    · rw [h3] at h
      simp only [exbind_error] at h
      exact absurd h (by simp)
    rw [h3] at h
    simp only [exbind_ok] at h
    try dsimp only at h ⊢
    rcases h4 : getIntField vd2 "version" with err | version
    · rw [h4] at h
      simp only [exbind_error] at h
      exact absurd h (by simp)
    rw [h4] at h
    simp only [exbind_ok] at h
    try dsimp only at h ⊢
    rcases h5 : version_structs version with err | ⟨bin_struct, wave_struct, cks⟩
    · rw [h5] at h
      simp only [exbind_error] at h
      exact absurd h (by simp)
    rw [h5] at h
    simp only [exbind_ok] at h
    try dsimp only at h ⊢
    rcases h6 : checksum (file.take (bin_struct.size + wave_struct.size))
        (byte_order native true) 0 cks with err | c
    · rw [h6] at h
      simp only [exbind_error] at h
      exact absurd h (by simp)
    rw [h6] at h
    simp only [exbind_ok] at h
    try dsimp only at h ⊢
    rcases hc : (c != 0) with _ | _
    · have hc0 : c = 0 := by simpa using hc
      rw [hc0]
    · rw [hc] at h
      simp only [if_true] at h
      exact absurd h (by simp)

/-- A nonzero validated checksum makes load fail with that checksum error. -/
theorem fileChecksum_nonzero_load (native : Endian) (file : List Nat)
    (c : Int) (hfc : fileChecksum native file = some c) (hne : c ≠ 0) :
    load native file = .error (.checksumError c) := by
  simp only [fileChecksum] at hfc
  simp only [load]
  rcases h1 : unpack_dict_from native BinHeaderCommon (file.take BinHeaderCommon.size) 0
    with err | vd
  · rw [h1] at hfc
    exact absurd hfc (by simp)
  rw [h1] at hfc
  simp only [exbind_ok]
  try dsimp only at hfc ⊢
  rcases h2 : getIntField vd "version" with err | version0
  · rw [h2] at hfc
    exact absurd hfc (by simp)
  rw [h2] at hfc
  simp only [exbind_ok]
  try dsimp only at hfc ⊢
  rcases hr : need_to_reorder_bytes version0 with _ | _
  · rw [hr] at hfc
    simp only [Bool.false_eq_true, if_false] at hfc ⊢
    simp only [expure, exbind_ok]
    try dsimp only at hfc ⊢
    rcases h5 : version_structs version0 with err | ⟨bin_struct, wave_struct, cks⟩
    · rw [h5] at hfc
      exact absurd hfc (by simp)
    rw [h5] at hfc
    simp only [exbind_ok]
    try dsimp only at hfc ⊢
    rcases h6 : checksum (file.take (bin_struct.size + wave_struct.size))
        (byte_order native false) 0 cks with err | c2
    · rw [h6] at hfc
      exact absurd hfc (by simp)
    rw [h6] at hfc
    simp only [exbind_ok]
    try dsimp only at hfc ⊢
    have hc2 : c2 = c := by simpa using hfc
    subst hc2
    rw [if_pos (by simpa using hne)]
  · rw [hr] at hfc
    simp only [if_true] at hfc ⊢
    rcases h3 : unpack_dict_from (byte_order native true) BinHeaderCommon
        (file.take BinHeaderCommon.size) 0 with err | vd2
    · rw [h3] at hfc
      exact absurd hfc (by simp)
    rw [h3] at hfc
    simp only [exbind_ok]
    try dsimp only at hfc ⊢
    rcases h4 : getIntField vd2 "version" with err | version
    · rw [h4] at hfc
      exact absurd hfc (by simp)
    rw [h4] at hfc
    simp only [exbind_ok]
    try dsimp only at hfc ⊢
    rcases h5 : version_structs version with err | ⟨bin_struct, wave_struct, cks⟩
    · rw [h5] at hfc
      exact absurd hfc (by simp)
    rw [h5] at hfc
    simp only [exbind_ok]
    try dsimp only at hfc ⊢
    rcases h6 : checksum (file.take (bin_struct.size + wave_struct.size))
        (byte_order native true) 0 cks with err | c2
    · rw [h6] at hfc
      exact absurd hfc (by simp)
    rw [h6] at hfc
    simp only [exbind_ok]
    try dsimp only at hfc ⊢
    have hc2 : c2 = c := by simpa using hfc
    subst hc2
    rw [if_pos (by simpa using hne)]

set_option maxRecDepth 10000 in
/-- C2: every file the wave decoder accepts validated a zero checksum; a
nonzero checksum is the checksum-error failure, with no decoded value; and
the version-5 checksum region is 4 bytes shorter than the two header sizes
summed, 384 = 64 + 324 - 4 bytes. -/
theorem C2_checksum_gate :
    (∀ native file r, load native file = .ok r → fileChecksum native file = some 0) ∧
    (∀ native file c, fileChecksum native file = some c → c ≠ 0 →
      load native file = .error (.checksumError c)) ∧
    version_structs 5 = .ok (BinHeader5, WaveHeader5, 384) ∧
    BinHeader5.size = 64 ∧ WaveHeader5.size = 324 :=
  ⟨load_ok_fileChecksum, fileChecksum_nonzero_load, rfl, by decide, by decide⟩

set_option maxRecDepth 10000 in
/-- C2 witness: the minimal version-1 file exFileC2 loads (its checksum is
zero), and the one-byte variant exFileC2bad fails with the checksum error
carrying its nonzero checksum 65280. -/
theorem C2_checksum_gate_witness :
    load .little exFileC2 = .ok exC2Result ∧
    fileChecksum .little exFileC2 = some 0 ∧
    load .little exFileC2bad = .error (.checksumError 65280) := by
  have hok : load .little exFileC2 = .ok exC2Result :=
    loadF_sound 300 .little exFileC2 _ rfl
  refine ⟨hok, C2_checksum_gate.1 .little exFileC2 exC2Result hok, ?_⟩
  have hbad : fileChecksum .little exFileC2bad = some 65280 := by
    simp only [fileChecksum]
    rw [unpack_dict_fromF_sound 100 .little BinHeaderCommon
      (exFileC2bad.take BinHeaderCommon.size) 0 (.ok (.dict [("version", .int 1)])) rfl]
    decide
  exact C2_checksum_gate.2.1 .little exFileC2bad 65280 hbad (by decide)

/-! ## Round-trip development: byte layer -/

theorem codesSize_nil : codesSize [] = 0 := rfl

theorem codesSize_cons (sc : SCode) (cs : List SCode) :
    codesSize (sc :: cs) = sc.size + codesSize cs := by
  simp [codesSize]

theorem structPackArgs_roundtrip (e : Endian) : ∀ codes args,
    List.Forall₂ (fun sc v => in_range sc v = true) codes args →
    ∃ bs, structPackArgs e codes args = .ok bs ∧ bs.length = codesSize codes ∧
      structUnpackArgs e codes bs = .ok args := by
  intro codes args h
  induction h with
  | nil => exact ⟨[], rfl, rfl, rfl⟩
  | @cons sc v codes args hrel htail ih =>
    obtain ⟨bs, hpack, hblen, hunpack⟩ := ih
    refine ⟨encodeScalar e sc v ++ bs, ?_, ?_, ?_⟩
    · simp only [structPackArgs, if_pos hrel, hpack, exbind_ok]
    · simp [encodeScalar_length, hblen, codesSize_cons]
    · have helen : (encodeScalar e sc v).length = sc.size := encodeScalar_length e sc v
      simp only [structUnpackArgs]
      rw [if_neg (by simp only [List.length_append, helen]; omega)]
      rw [show (encodeScalar e sc v ++ bs).take sc.size = encodeScalar e sc v by
        rw [← helen]; exact List.take_left _ _]
      rw [show (encodeScalar e sc v ++ bs).drop sc.size = bs by
        rw [← helen]; exact List.drop_left _ _]
      rw [hunpack]
      simp only [exbind_ok]
      rw [decodeScalar_encodeScalar e sc v hrel]

/-! ## Round-trip development: code lists and sizes -/

mutual
theorem fmtCodes_length : ∀ fmt : Fmt, (fmtCodes fmt).length = fmtUnit fmt
  | .scalar sc => rfl
  | .strct nm fields => by
      simp only [fmtCodes, fmtUnit]
      exact fieldsCodes_length fields
theorem fieldsCodes_length : ∀ fs : List Fld,
    (fieldsCodes fs).length = fieldsTotal fs
  | [] => rfl
  | f :: fs => by
      simp only [fieldsCodes, fieldsTotal, List.length_append]
      rw [fldCodes_length f, fieldsCodes_length fs]
theorem fldCodes_length : ∀ f : Fld, (fldCodes f).length = fldTotal f
  | .mk nm fmt cnt dflt => by
      simp only [fldCodes, fldTotal]
      rw [List.length_flatten]
      rw [show (List.replicate cnt.itemCount (fmtCodes fmt)).map List.length =
          List.replicate cnt.itemCount (fmtCodes fmt).length from by
        simp]
      simp [fmtCodes_length fmt, Nat.mul_comm]
end

/-! ## Round-trip development: generic pack_indexed lemmas -/

theorem pack_indexed_append (fmt : Fmt) (dflt : Option Int) (v : Value) :
    ∀ l1 l2, pack_indexed fmt dflt v (l1 ++ l2) =
      (do
        let a ← pack_indexed fmt dflt v l1
        let b ← pack_indexed fmt dflt v l2
        (.ok (a ++ b) : Except Err (List Int))) := by
  intro l1
  induction l1 with
  | nil =>
    intro l2
    simp only [List.nil_append, pack_indexed, exbind_ok, List.nil_append]
    rcases pack_indexed fmt dflt v l2 with err | b <;> rfl
  | cons idx rest ih =>
    intro l2
    simp only [List.cons_append, pack_indexed]
    rcases indexGet v idx with err | item
    · rfl
    simp only [exbind_ok]
    rcases Fmt.pack_item fmt dflt item with err | toks
    · rfl
    simp only [exbind_ok]
    rw [ih l2]
    rcases pack_indexed fmt dflt v rest with err | a
    · rfl
    simp only [exbind_ok, exbind_error]
    rcases pack_indexed fmt dflt v l2 with err | b
    · rfl
    simp only [exbind_ok]
    simp [List.append_assoc]

theorem pack_indexed_ints (fmt : Fmt) (dflt : Option Int) :
    ∀ (vs pre : List Value),
      pack_indexed fmt dflt (.arr (pre ++ vs))
        ((List.range vs.length).map (fun i => [pre.length + i])) =
      packItemsSeq fmt dflt vs := by
  intro vs
  induction vs with
  | nil =>
    intro pre
    simp only [List.length_nil, List.range_zero, List.map_nil, pack_indexed,
      packItemsSeq]
  | cons v vs ih =>
    intro pre
    rw [show (v :: vs).length = vs.length + 1 from rfl, List.range_succ_eq_map]
    simp only [List.map_cons, List.map_map, pack_indexed]
    rw [show indexGet (Value.arr (pre ++ v :: vs)) [pre.length + 0] =
        .ok (some v) from by
      simp only [indexGet, Nat.add_zero]
      rw [List.getElem?_append_right (Nat.le_refl _)]
      simp]
    simp only [exbind_ok]
    rw [show ((List.range vs.length).map ((fun i => [pre.length + i]) ∘ Nat.succ)) =
        (List.range vs.length).map (fun i => [(pre ++ [v]).length + i]) from by
      apply List.map_congr_left
      intro i hi
      simp only [Function.comp_apply, List.length_append, List.length_cons,
        List.length_nil]
      congr 1
      omega]
    rw [show pre ++ v :: vs = (pre ++ [v]) ++ vs by simp]
    rw [ih (pre ++ [v])]
    simp only [packItemsSeq]

/-! ## Round-trip development: unpack-side helpers -/

theorem unpack_data_one (fmt : Fmt) (toks : List Int)
    (hlen : toks.length = fmtUnit fmt) (hpos : 0 < fmtUnit fmt) :
    unpack_data fmt (.int 1) toks = unpack_item fmt toks := by
  rw [unpack_data.eq_def]
  rw [if_neg (by simp [Count.itemCount, hlen])]
  cases fmt with
  | scalar sc =>
    simp only [fmtUnit] at hlen
    rcases toks with _ | ⟨x, rest⟩
    · simp at hlen
    rcases rest with _ | ⟨y, rest⟩
    · simp only [unpack_item, Count.itemCount, List.map_cons, List.map_nil,
        List.head?]
    · simp at hlen
  | strct nm fields =>
    simp only [fmtUnit] at hlen hpos
    have h0 : (fieldsTotal fields == 0) = false := by
      simp only [beq_eq_false_iff_ne, ne_eq]
      omega
    simp only [h0, Bool.false_eq_true, if_false, Count.itemCount]
    rw [show chunkFixed (fieldsTotal fields) 1 toks = [toks] from by
      simp [chunkFixed, List.range_succ, ← hlen]]
    simp only [unpackClumps]
    rcases hu : unpack_item_struct fields toks with err | v
    · simp only [exbind_error]
      simp only [unpack_item, hu]
    · simp only [exbind_ok, exbind_error]
      simp only [unpack_item, hu]
      rfl

theorem chunkFixed_flatten (k : Nat) : ∀ bss : List (List Int),
    (∀ b ∈ bss, b.length = k) →
    chunkFixed k bss.length bss.flatten = bss := by
  intro bss
  induction bss with
  | nil => intro _; simp [chunkFixed]
  | cons b bss ih =>
    intro hall
    have hb : b.length = k := hall b (List.mem_cons_self b bss)
    simp only [List.length_cons, chunkFixed, List.range_succ_eq_map,
      List.map_cons, List.map_map, List.flatten_cons]
    congr 1
    · rw [Nat.zero_mul, List.drop_zero, ← hb, List.take_left]
    · have hmap : List.map
          ((fun i => ((b ++ bss.flatten).drop (i * k)).take k) ∘ Nat.succ)
          (List.range bss.length) =
          List.map (fun i => ((bss.flatten).drop (i * k)).take k)
            (List.range bss.length) := by
        apply List.map_congr_left
        intro i _
        simp only [Function.comp_apply]
        congr 1
        rw [show Nat.succ i * k = b.length + i * k by
          rw [hb, Nat.succ_mul, Nat.add_comm]]
        exact List.drop_append _
      rw [hmap]
      have := ih (fun x hx => hall x (List.mem_cons_of_mem b hx))
      simpa [chunkFixed] using this

theorem unpackClumps_of_forall₂ (fields : List Fld) :
    ∀ (vs : List Value) (toksL : List (List Int)),
    List.Forall₂ (fun v t => unpack_item_struct fields t = .ok v) vs toksL →
    unpackClumps fields toksL = .ok vs := by
  intro vs toksL h
  induction h with
  | nil => simp only [unpackClumps]
  | @cons v t vs toksL hrel htail ih =>
    simp only [unpackClumps, hrel, ih, exbind_ok]

theorem flatten_singles_map : ∀ (vs : List Value) (toksL : List (List Int)),
    List.Forall₂ (fun v t => ∃ x, t = [x] ∧ v = .int x) vs toksL →
    toksL.flatten.map Value.int = vs := by
  intro vs toksL h
  induction h with
  | nil => rfl
  | @cons v t vs toksL hrel htail ih =>
    obtain ⟨x, ht, hv⟩ := hrel
    subst ht hv
    simp only [List.flatten_cons, List.map_append, ih, List.cons_append,
      List.map_cons, List.map_nil, List.nil_append]

theorem forall₂_replicate_of_forall {α β : Type} (P : α → β → Prop) (c : α) :
    ∀ l : List β, (∀ x ∈ l, P c x) →
      List.Forall₂ P (List.replicate l.length c) l := by
  intro l
  induction l with
  | nil => intro _; simp
  | cons x l ih =>
    intro h
    simp only [List.length_cons, List.replicate_succ]
    exact List.Forall₂.cons (h x (List.mem_cons_self x l))
      (ih (fun y hy => h y (List.mem_cons_of_mem x hy)))

theorem forall₂_flatten {α β : Type} (P : α → β → Prop) :
    ∀ As : List (List α), ∀ Bs : List (List β),
    List.Forall₂ (List.Forall₂ P) As Bs →
    List.Forall₂ P As.flatten Bs.flatten := by
  intro As Bs h
  induction h with
  | nil => simp
  | @cons a b As Bs hrel htail ih =>
    simp only [List.flatten_cons]
    exact List.rel_append hrel ih

/-! ## Round-trip development: multi-dimensional fields -/

theorem conformsDimsList_mem (fmt : Fmt) : ∀ (rest : List Nat) (vs : List Value),
    conformsDimsList fmt rest vs = true →
    ∀ w ∈ vs, conformsShape fmt rest w = true := by
  intro rest vs
  induction vs with
  | nil => intro _ w hw; cases hw
  | cons v vs ih =>
    intro h w hw
    rcases rest with _ | ⟨d, r⟩
    · simp only [conformsDimsList, Bool.and_eq_true] at h
      rcases List.mem_cons.mp hw with hw | hw
      · subst hw
        simpa only [conformsShape] using h.1
      · exact ih h.2 w hw
    · simp only [conformsDimsList, Bool.and_eq_true] at h
      rcases List.mem_cons.mp hw with hw | hw
      · subst hw
        simpa only [conformsShape] using h.1
      · exact ih h.2 w hw

theorem dimsTokens_length (sc : SCode) : ∀ (ds : List Nat) (v : Value),
    conformsShape (.scalar sc) ds v = true →
    (dimsTokens ds v).length = ds.prod := by
  intro ds
  induction ds with
  | nil =>
    intro v h
    rcases v with x | vs | es
    · simp [dimsTokens]
    · simp [conformsShape, conforms] at h
    · simp [conformsShape, conforms] at h
  | cons d rest ih =>
    intro v h
    simp only [conformsShape] at h
    rcases v with x | vs | es
    · simp [conformsDims] at h
    · simp only [conformsDims, Bool.and_eq_true, beq_iff_eq] at h
      obtain ⟨hlen, hlist⟩ := h
      simp only [dimsTokens, List.length_flatten, List.map_map]
      have hmap : vs.map (List.length ∘ fun w => dimsTokens rest w) =
          vs.map (fun _ => rest.prod) := by
        apply List.map_congr_left
        intro w hw
        exact ih w (conformsDimsList_mem _ rest vs hlist w hw)
      rw [hmap]
      simp [List.map_const', hlen, List.prod_cons, Nat.mul_comm]
    · simp [conformsDims] at h

theorem dimsTokens_in_range (sc : SCode) : ∀ (ds : List Nat) (v : Value),
    conformsShape (.scalar sc) ds v = true →
    ∀ t ∈ dimsTokens ds v, in_range sc t = true := by
  intro ds
  induction ds with
  | nil =>
    intro v h t ht
    rcases v with x | vs | es
    · simp only [dimsTokens, List.mem_singleton] at ht
      subst ht
      simpa [conformsShape, conforms] using h
    · simp [conformsShape, conforms] at h
    · simp [conformsShape, conforms] at h
  | cons d rest ih =>
    intro v h t ht
    simp only [conformsShape] at h
    rcases v with x | vs | es
    · simp [conformsDims] at h
    · simp only [conformsDims, Bool.and_eq_true, beq_iff_eq] at h
      obtain ⟨hlen, hlist⟩ := h
      simp only [dimsTokens, List.mem_flatten, List.mem_map] at ht
      obtain ⟨b, ⟨w, hw, hb⟩, htb⟩ := ht
      subst hb
      exact ih w (conformsDimsList_mem _ rest vs hlist w hw) t htb
    · simp [conformsDims] at h

/-! Mixed-radix digit lemmas for Field.indexes. -/

theorem idxDigits_acc : ∀ (l : List Nat) (acc : List Nat) (i : Nat),
    idxDigits l acc i = idxDigits l [] i ++ acc := by
  intro l
  induction l with
  | nil => intro acc i; simp [idxDigits]
  | cons c rest ih =>
    intro acc i
    simp only [idxDigits]
    rw [ih (i % c :: acc), ih [i % c]]
    simp

theorem idxDigits_acc_cons (l : List Nat) (a : Nat) (acc : List Nat) (i : Nat) :
    idxDigits l (a :: acc) i = idxDigits l [] i ++ a :: acc :=
  idxDigits_acc l (a :: acc) i

theorem idxDigits_append : ∀ (l1 l2 : List Nat) (i : Nat),
    idxDigits (l1 ++ l2) [] i =
      idxDigits l2 [] (i / l1.prod) ++ idxDigits l1 [] i := by
  intro l1
  induction l1 with
  | nil =>
    intro l2 i
    simp [idxDigits, List.prod_nil]
  | cons c rest ih =>
    intro l2 i
    simp only [List.cons_append, idxDigits]
    simp only [idxDigits_acc_cons, List.append_eq]
    rw [ih l2 (i / c)]
    rw [Nat.div_div_eq_div_mul]
    simp [List.prod_cons, Nat.mul_comm, List.append_assoc]

theorem idxDigits_mod : ∀ (l : List Nat) (i k : Nat),
    idxDigits l [] (i + l.prod * k) = idxDigits l [] i := by
  intro l
  induction l with
  | nil => intro i k; simp [idxDigits]
  | cons c rest ih =>
    intro i k
    rcases Nat.eq_zero_or_pos c with hc | hc
    · subst hc
      simp [List.prod_cons]
    · simp only [idxDigits, List.prod_cons]
      rw [idxDigits_acc_cons, idxDigits_acc_cons]
      rw [show c * rest.prod * k = c * (rest.prod * k) by ring]
      rw [Nat.add_mul_mod_self_left]
      rw [Nat.add_mul_div_left i (rest.prod * k) hc]
      rw [ih (i / c) k]

theorem idxDigits_cons_decomp (d : Nat) (rest : List Nat) (i : Nat)
    (hi : i < d * rest.prod) :
    idxDigits (d :: rest).reverse [] i =
      (i / rest.prod) :: idxDigits rest.reverse [] (i % rest.prod) := by
  have hmodinv : idxDigits rest.reverse [] i =
      idxDigits rest.reverse [] (i % rest.prod) := by
    have h0 := idxDigits_mod rest.reverse (i % rest.prod) (i / rest.prod)
    rw [List.prod_reverse] at h0
    rw [Nat.mod_add_div] at h0
    exact h0
  have hi2 : i < rest.prod * d := by
    rw [Nat.mul_comm rest.prod d]
    exact hi
  have hq : i / rest.prod < d := Nat.div_lt_of_lt_mul hi2
  rw [List.reverse_cons, idxDigits_append, List.prod_reverse, hmodinv]
  rw [show idxDigits [d] [] (i / rest.prod) = [i / rest.prod % d] from rfl]
  rw [Nat.mod_eq_of_lt hq]
  rfl

theorem pack_indexed_cons_path (fmt : Fmt) (dflt : Option Int)
    (vsl : List Value) (j : Nat) (w : Value) (hj : vsl[j]? = some w) :
    ∀ idxs, pack_indexed fmt dflt (.arr vsl) (idxs.map (fun q => j :: q)) =
      pack_indexed fmt dflt w idxs := by
  intro idxs
  induction idxs with
  | nil =>
    simp only [List.map_nil, pack_indexed]
  | cons q ps ih =>
    simp only [List.map_cons, pack_indexed]
    rw [show indexGet (.arr vsl) (j :: q) = indexGet w q from by
      simp only [indexGet, hj]]
    rcases indexGet w q with err | item
    · rfl
    simp only [exbind_ok]
    rcases Fmt.pack_item fmt dflt item with err | toks
    · rfl
    simp only [exbind_ok]
    rw [ih]

theorem flatten_eq_nil_of_all_nil {α : Type} : ∀ (bss : List (List α)),
    (∀ b ∈ bss, b = []) → bss.flatten = [] := by
  intro bss h
  induction bss with
  | nil => rfl
  | cons b bss ih =>
    simp only [List.flatten_cons, h b (List.mem_cons_self b bss),
      List.nil_append]
    exact ih (fun x hx => h x (List.mem_cons_of_mem b hx))

theorem pack_indexed_dims_blocks (sc : SCode) (dflt : Option Int)
    (rest : List Nat)
    (IH : ∀ w, conformsShape (.scalar sc) rest w = true →
      pack_indexed (.scalar sc) dflt w (indexesFor (.dims rest)) =
        .ok (dimsTokens rest w)) :
    ∀ (vs : List Value), ∀ (pre : List Value),
      (∀ w ∈ vs, conformsShape (.scalar sc) rest w = true) →
      pack_indexed (.scalar sc) dflt (.arr (pre ++ vs))
        ((List.range (vs.length * rest.prod)).map
          (fun i => (pre.length + i / rest.prod) ::
            idxDigits rest.reverse [] (i % rest.prod))) =
      .ok ((vs.map (fun w => dimsTokens rest w)).flatten) := by
  intro vs
  by_cases hp : rest.prod = 0
  · intro pre hall
    rw [hp]
    simp only [Nat.mul_zero, List.range_zero, List.map_nil, pack_indexed]
    rw [flatten_eq_nil_of_all_nil _ (by
      intro b hb
      obtain ⟨w, hw, hbw⟩ := List.mem_map.mp hb
      subst hbw
      have := dimsTokens_length sc rest w (hall w hw)
      rw [hp] at this
      exact List.eq_nil_of_length_eq_zero this)]
  · induction vs with
    | nil =>
      intro pre hall
      simp only [List.length_nil, Nat.zero_mul, List.range_zero, List.map_nil,
        pack_indexed, List.map_nil, List.flatten_nil]
    | cons w vs ih =>
      intro pre hall
      have hw := hall w (List.mem_cons_self w vs)
      rw [show (w :: vs).length * rest.prod =
          rest.prod + vs.length * rest.prod from by
        simp [List.length_cons, Nat.succ_mul, Nat.add_comm]]
      rw [List.range_add, List.map_append, pack_indexed_append]
      have hblock1 : (List.range rest.prod).map
          (fun i => (pre.length + i / rest.prod) ::
            idxDigits rest.reverse [] (i % rest.prod)) =
          (indexesFor (.dims rest)).map (fun path => pre.length :: path) := by
        simp only [indexesFor, List.map_map]
        apply List.map_congr_left
        intro i hi
        have hilt : i < rest.prod := List.mem_range.mp hi
        simp only [Function.comp_apply]
        rw [Nat.div_eq_of_lt hilt, Nat.mod_eq_of_lt hilt, Nat.add_zero]
      rw [hblock1]
      rw [pack_indexed_cons_path (.scalar sc) dflt (pre ++ w :: vs) pre.length w
        (by rw [List.getElem?_append_right (Nat.le_refl _)]; simp)]
      rw [IH w hw]
      have hblock2 : ((List.range (vs.length * rest.prod)).map (rest.prod + ·)).map
          (fun i => (pre.length + i / rest.prod) ::
            idxDigits rest.reverse [] (i % rest.prod)) =
          (List.range (vs.length * rest.prod)).map
            (fun i => ((pre ++ [w]).length + i / rest.prod) ::
              idxDigits rest.reverse [] (i % rest.prod)) := by
        rw [List.map_map]
        apply List.map_congr_left
        intro i _
        simp only [Function.comp_apply]
        have h1 : (rest.prod + i) / rest.prod = i / rest.prod + 1 := by
          rw [Nat.add_comm rest.prod i]
          exact Nat.add_div_right i (Nat.pos_of_ne_zero hp)
        have h2 : (rest.prod + i) % rest.prod = i % rest.prod := by
          rw [Nat.add_comm rest.prod i]
          exact Nat.add_mod_right i rest.prod
        rw [h1, h2]
        congr 1
        simp only [List.length_append, List.length_cons, List.length_nil]
        omega
      rw [hblock2]
      rw [show pre ++ w :: vs = (pre ++ [w]) ++ vs from by simp]
      rw [ih (pre ++ [w]) (fun x hx => hall x (List.mem_cons_of_mem w hx))]
      simp only [exbind_ok, List.map_cons, List.flatten_cons]

theorem pack_indexed_dims (sc : SCode) (dflt : Option Int) :
    ∀ (ds : List Nat) (v : Value), conformsShape (.scalar sc) ds v = true →
      pack_indexed (.scalar sc) dflt v (indexesFor (.dims ds)) =
        .ok (dimsTokens ds v) := by
  intro ds
  induction ds with
  | nil =>
    intro v h
    rcases v with x | vs | es
    · rw [show indexesFor (Count.dims ([] : List Nat)) = [[]] from rfl]
      simp only [pack_indexed, indexGet, Fmt.pack_item, exbind_ok]
      simp [dimsTokens]
    · simp [conformsShape, conforms] at h
    · simp [conformsShape, conforms] at h
  | cons d rest ih =>
    intro v h
    simp only [conformsShape] at h
    rcases v with x | vs | es
    · simp [conformsDims] at h
    · simp only [conformsDims, Bool.and_eq_true, beq_iff_eq] at h
      obtain ⟨hlen, hlist⟩ := h
      have hall := conformsDimsList_mem (.scalar sc) rest vs hlist
      have hidx : indexesFor (.dims (d :: rest)) =
          (List.range (vs.length * rest.prod)).map
            (fun i => (([] : List Value).length + i / rest.prod) ::
              idxDigits rest.reverse [] (i % rest.prod)) := by
        simp only [indexesFor, List.prod_cons, List.length_nil, Nat.zero_add]
        rw [show d * rest.prod = vs.length * rest.prod from by rw [hlen]]
        apply List.map_congr_left
        intro i hi
        have hilt : i < vs.length * rest.prod := List.mem_range.mp hi
        rw [hlen] at hilt
        exact idxDigits_cons_decomp d rest i hilt
      rw [hidx]
      have := pack_indexed_dims_blocks sc dflt rest ih vs [] hall
      simpa using this
    · simp [conformsDims] at h

theorem flatten_blocks_map {α β : Type} (p : Nat) (f : List α → β) :
    ∀ (bss : List (List α)), (∀ b ∈ bss, b.length = p) →
    (List.range bss.length).map
      (fun i => f ((bss.flatten.drop (i * p)).take p)) = bss.map f := by
  intro bss
  induction bss with
  | nil => intro _; simp
  | cons b bss ih =>
    intro hall
    have hb : b.length = p := hall b (List.mem_cons_self b bss)
    simp only [List.length_cons, List.range_succ_eq_map, List.map_cons,
      List.map_map, List.flatten_cons]
    congr 1
    · rw [Nat.zero_mul, List.drop_zero, ← hb, List.take_left]
    · have hmap : ∀ i, i ∈ List.range bss.length →
          ((fun i => f (((b ++ bss.flatten).drop (i * p)).take p)) ∘ Nat.succ) i =
          f (((bss.flatten).drop (i * p)).take p) := by
        intro i _
        simp only [Function.comp_apply]
        congr 2
        rw [show Nat.succ i * p = b.length + i * p from by
          rw [hb, Nat.succ_mul, Nat.add_comm]]
        exact List.drop_append _
      rw [List.map_congr_left hmap]
      exact ih (fun x hx => hall x (List.mem_cons_of_mem b hx))

theorem reshapeDims_dimsTokens (sc : SCode) : ∀ (ds : List Nat) (v : Value),
    conformsShape (.scalar sc) ds v = true →
    reshapeDims ds ((dimsTokens ds v).map Value.int) = v := by
  intro ds
  induction ds with
  | nil =>
    intro v h
    rcases v with x | vs | es
    · simp [dimsTokens, reshapeDims]
    · simp [conformsShape, conforms] at h
    · simp [conformsShape, conforms] at h
  | cons d rest ih =>
    intro v h
    simp only [conformsShape] at h
    rcases v with x | vs | es
    · simp [conformsDims] at h
    · simp only [conformsDims, Bool.and_eq_true, beq_iff_eq] at h
      obtain ⟨hlen, hlist⟩ := h
      have hall := conformsDimsList_mem (.scalar sc) rest vs hlist
      simp only [dimsTokens, reshapeDims]
      have hflat : ((vs.map (fun w => dimsTokens rest w)).flatten).map Value.int =
          (vs.map (fun w => (dimsTokens rest w).map Value.int)).flatten := by
        rw [List.map_flatten, List.map_map]
        rfl
      rw [hflat]
      have hblocks : ∀ b ∈ vs.map (fun w => (dimsTokens rest w).map Value.int),
          b.length = rest.prod := by
        intro b hb
        obtain ⟨w, hw, hbw⟩ := List.mem_map.mp hb
        subst hbw
        simp only [List.length_map]
        exact dimsTokens_length sc rest w (hall w hw)
      have hd : d = (vs.map (fun w => (dimsTokens rest w).map Value.int)).length := by
        simp [hlen]
      rw [hd]
      rw [flatten_blocks_map rest.prod (reshapeDims rest) _ hblocks]
      rw [List.map_map]
      rw [show vs.map ((reshapeDims rest) ∘ fun w => (dimsTokens rest w).map Value.int)
          = vs.map id from by
        apply List.map_congr_left
        intro w hw
        simp only [Function.comp_apply, id]
        exact ih w (hall w hw)]
      simp
    · simp [conformsDims] at h

/-! ## Round-trip development: field and structure layer helpers -/

theorem unpack_item_scalar_inv (sc : SCode) (t : List Int) (v : Value)
    (h : unpack_item (.scalar sc) t = .ok v) : ∃ x, t = [x] ∧ v = .int x := by
  rcases t with _ | ⟨x, rest⟩
  · simp [unpack_item] at h
  rcases rest with _ | ⟨y, rest⟩
  · refine ⟨x, rfl, ?_⟩
    simp only [unpack_item] at h
    exact (Except.ok.inj h).symm
  · simp [unpack_item] at h

theorem forall₂_right_mem {α β : Type} {P : α → β → Prop} :
    ∀ {l₁ : List α} {l₂ : List β}, List.Forall₂ P l₁ l₂ →
      ∀ b ∈ l₂, ∃ a ∈ l₁, P a b := by
  intro l₁ l₂ h
  induction h with
  | nil => intro b hb; cases hb
  | @cons a b l₁ l₂ hrel htail ih =>
    intro x hx
    rcases List.mem_cons.mp hx with hx | hx
    · subst hx
      exact ⟨a, List.mem_cons_self a l₁, hrel⟩
    · obtain ⟨a2, ha2, hp⟩ := ih x hx
      exact ⟨a2, List.mem_cons_of_mem a ha2, hp⟩

theorem flatten_replicate_singleton {α : Type} (a : α) :
    ∀ n, (List.replicate n [a]).flatten = List.replicate n a := by
  intro n
  induction n with
  | zero => rfl
  | succ n ih =>
    simp only [List.replicate_succ, List.flatten_cons, ih, List.cons_append,
      List.nil_append]

theorem flatten_length_const {α : Type} (u : Nat) :
    ∀ (bss : List (List α)), (∀ b ∈ bss, b.length = u) →
      bss.flatten.length = bss.length * u := by
  intro bss
  induction bss with
  | nil => intro _; simp
  | cons b bss ih =>
    intro hall
    simp only [List.flatten_cons, List.length_append, List.length_cons,
      hall b (List.mem_cons_self b bss),
      ih (fun x hx => hall x (List.mem_cons_of_mem b hx))]
    ring

theorem pack_fields_skip : ∀ (fs : List Fld) (k : String) (v : Value)
    (es : List (String × Value)), k ∉ fieldNames fs →
    pack_fields fs ((k, v) :: es) = pack_fields fs es := by
  intro fs
  induction fs with
  | nil => intro k v es _; simp only [pack_fields]
  | cons f fs ih =>
    intro k v es hk
    rcases f with ⟨nm, fmt, cnt, dflt⟩
    have hne : (k == nm) = false := by
      simp only [fieldNames, List.map_cons, List.mem_cons, Fld.fname] at hk
      simp only [beq_eq_false_iff_ne, ne_eq]
      intro hkn
      exact hk (Or.inl hkn)
    simp only [pack_fields]
    rw [show lookupEntry ((k, v) :: es) nm = lookupEntry es nm from by
      simp only [lookupEntry, hne, Bool.false_eq_true, if_false]]
    rw [ih k v es (by
      intro hmem
      apply hk
      simp only [fieldNames, List.map_cons, List.mem_cons, Fld.fname]
      right
      simpa [fieldNames] using hmem)]


/-! ## Round-trip development: the value-layer induction -/

theorem wfFld_parts (nm : String) (fmt : Fmt) (cnt : Count) (dflt : Option Int)
    (h : wfFld (.mk nm fmt cnt dflt) = true) :
    wfFmt fmt = true ∧
    (∀ snm flds, fmt = .strct snm flds → 1 ≤ fieldsTotal flds) ∧
    (∀ ds, cnt = .dims ds →
      (∃ sc, fmt = .scalar sc) ∧ ds ≠ [] ∧ ds.prod ≠ 1) := by
  rcases fmt with sc | ⟨snm, flds⟩ <;> rcases cnt with n | ds
  · have h2 : (wfFmt (.scalar sc) && true) = true := h
    refine ⟨by simpa using h2, ?_, ?_⟩
    · intro snm flds hfmt
      simp at hfmt
    · intro ds hds
      simp at hds
  · have h2 : (wfFmt (.scalar sc) && (!ds.isEmpty && decide (ds.prod ≠ 1)))
        = true := h
    simp only [Bool.and_eq_true, Bool.not_eq_true', decide_eq_true_eq] at h2
    refine ⟨h2.1, ?_, ?_⟩
    · intro snm flds hfmt
      simp at hfmt
    · intro ds2 hds
      cases hds
      refine ⟨⟨sc, rfl⟩, ?_, h2.2.2⟩
      intro hnil
      rw [hnil] at h2
      simp at h2
  · have h2 : (wfFmt (.strct snm flds) && decide (1 ≤ fieldsTotal flds))
        = true := h
    simp only [Bool.and_eq_true, decide_eq_true_eq] at h2
    refine ⟨h2.1, ?_, ?_⟩
    · intro snm2 flds2 hfmt
      cases hfmt
      exact h2.2
    · intro ds hds
      simp at hds
  · have h2 : (wfFmt (.strct snm flds) && false) = true := h
    simp at h2

theorem RT_item_step (fu : Nat) (ihStruct : StructP fu)
    (dflt : Option Int) (fmt : Fmt) (v : Value) (hn : sizeOf v ≤ fu + 1)
    (hwf : wfFmt fmt = true) (hc : conforms fmt v = true) :
    ∃ toks, Fmt.pack_item fmt dflt (some v) = .ok toks ∧
      List.Forall₂ (fun sc t => in_range sc t = true) (fmtCodes fmt) toks ∧
      unpack_item fmt toks = .ok v := by
  rcases fmt with sc | ⟨snm, fields⟩
  · rcases v with x | vs | es
    · refine ⟨[x], ?_, ?_, ?_⟩
      · simp only [Fmt.pack_item]
      · rw [show fmtCodes (.scalar sc) = [sc] from rfl]
        exact List.Forall₂.cons (show in_range sc x = true from hc) List.Forall₂.nil
      · simp only [unpack_item]
    · simp [conforms] at hc
    · simp [conforms] at hc
  · rcases v with x | vs | es
    · simp [conforms] at hc
    · simp [conforms] at hc
    · have hwf' : (nodupNames (fieldNames fields) && wfFields fields) = true := hwf
      have hc' : conformsFields fields es = true := hc
      have hbound : sizeOf es ≤ fu := by
        have h5 := hn
        simp only [Value.dict.sizeOf_spec] at h5
        omega
      obtain ⟨args, hpack, hrange, hunp⟩ := ihStruct fields es hbound hwf' hc'
      refine ⟨args, ?_, ?_, ?_⟩
      · simp only [Fmt.pack_item]
        rw [pack_item_struct.eq_def]
        simpa using hpack
      · rw [show fmtCodes (.strct snm fields) = fieldsCodes fields from rfl]
        exact hrange
      · simp only [unpack_item]
        rw [unpack_item_struct.eq_def]
        have h0 := hunp []
        rw [List.append_nil] at h0
        rw [h0]

theorem RT_list_step (fu : Nat) (ihItem : ItemP fu) (ihList : ListP fu)
    (dflt : Option Int) (fmt : Fmt) (vs : List Value) (hn : sizeOf vs ≤ fu + 1)
    (hwf : wfFmt fmt = true) (hc : conformsList fmt vs = true) :
    ∃ toksL : List (List Int),
      packItemsSeq fmt dflt vs = .ok toksL.flatten ∧
      List.Forall₂ (fun v t =>
        List.Forall₂ (fun sc x => in_range sc x = true) (fmtCodes fmt) t ∧
        unpack_item fmt t = .ok v) vs toksL := by
  rcases vs with _ | ⟨v, vs⟩
  · exact ⟨[], by simp only [packItemsSeq, List.flatten_nil], List.Forall₂.nil⟩
  · have hc1 : (conforms fmt v && conformsList fmt vs) = true := hc
    simp only [Bool.and_eq_true] at hc1
    have hbv : sizeOf v ≤ fu := by
      have h5 := hn
      simp only [List.cons.sizeOf_spec] at h5
      omega
    have hbvs : sizeOf vs ≤ fu := by
      have h5 := hn
      simp only [List.cons.sizeOf_spec] at h5
      omega
    obtain ⟨toks, hipack, hirange, hiunp⟩ := ihItem dflt fmt v hbv hwf hc1.1
    obtain ⟨toksL, hseq, hF⟩ := ihList dflt fmt vs hbvs hwf hc1.2
    refine ⟨toks :: toksL, ?_, List.Forall₂.cons ⟨hirange, hiunp⟩ hF⟩
    simp only [packItemsSeq, hipack, hseq, exbind_ok, List.flatten_cons]

theorem RT_struct_step (fu : Nat) (ihItem : ItemP fu) (ihList : ListP fu)
    (ihStruct : StructP fu)
    (fields : List Fld) (entries : List (String × Value))
    (hn : sizeOf entries ≤ fu + 1)
    (hwf : (nodupNames (fieldNames fields) && wfFields fields) = true)
    (hc : conformsFields fields entries = true) :
    ∃ args, pack_fields fields entries = .ok args ∧
      List.Forall₂ (fun sc t => in_range sc t = true) (fieldsCodes fields) args ∧
      ∀ rest, unpack_fields fields (args ++ rest) = .ok (entries, rest) := by
  rcases fields with _ | ⟨⟨nm, fmt, cnt, dflt⟩, fs⟩
  · rcases entries with _ | ⟨⟨k, v⟩, es⟩
    · refine ⟨[], ?_, ?_, ?_⟩
      · simp only [pack_fields]
      · rw [show fieldsCodes [] = [] from rfl]
        exact List.Forall₂.nil
      · intro rest
        simp only [unpack_fields, List.nil_append]
    · exact absurd hc (by simp [conformsFields])
  · rcases entries with _ | ⟨⟨k, v⟩, es⟩
    · exact absurd hc (by simp [conformsFields])
    simp only [Bool.and_eq_true] at hwf
    obtain ⟨hnodup, hwfs⟩ := hwf
    have hnodup' : (!((fieldNames fs).contains nm) && nodupNames (fieldNames fs))
        = true := hnodup
    simp only [Bool.and_eq_true, Bool.not_eq_true'] at hnodup'
    obtain ⟨hcontains, hnodup_fs⟩ := hnodup'
    have hnm_not : nm ∉ fieldNames fs := by
      intro hmem
      have h3 : (fieldNames fs).elem nm = true := List.elem_iff.mpr hmem
      rw [show (fieldNames fs).contains nm = (fieldNames fs).elem nm from rfl,
        h3] at hcontains
      simp at hcontains
    have hwfs' : (wfFld ⟨nm, fmt, cnt, dflt⟩ && wfFields fs) = true := hwfs
    simp only [Bool.and_eq_true] at hwfs'
    obtain ⟨hwfld, hwfs_fs⟩ := hwfs'
    obtain ⟨hwfmt, hstrct_cond, hdims_cond⟩ :=
      wfFld_parts nm fmt cnt dflt hwfld
    have hbes : sizeOf es ≤ fu := by
      have h5 := hn
      simp only [List.cons.sizeOf_spec, Prod.mk.sizeOf_spec] at h5
      omega
    have hbv : sizeOf v ≤ fu := by
      have h5 := hn
      simp only [List.cons.sizeOf_spec, Prod.mk.sizeOf_spec] at h5
      omega
    have hIH := ihStruct fs es hbes
    rcases cnt with n | ds
    · match n with
      | 1 =>
        have hc1 : ((k == nm) && conforms fmt v && conformsFields fs es) = true := hc
        simp only [Bool.and_eq_true] at hc1
        obtain ⟨⟨hk, hcv⟩, hces⟩ := hc1
        have hkeq : nm = k := by
          have : k = nm := by simpa using hk
          exact this.symm
        subst hkeq
        obtain ⟨args', hpack', hrange', hunp'⟩ :=
          hIH (by rw [Bool.and_eq_true]; exact ⟨hnodup_fs, hwfs_fs⟩) hces
        obtain ⟨toks, hipack, hirange, hiunp⟩ := ihItem dflt fmt v hbv hwfmt hcv
        have htlen : toks.length = fmtUnit fmt := by
          have h1 := (List.Forall₂.length_eq hirange).symm
          rw [fmtCodes_length] at h1
          exact h1
        have hpos : 0 < fmtUnit fmt := by
          rcases fmt with sc | ⟨nm2, fields2⟩
          · simp [fmtUnit]
          · have h2 := hstrct_cond nm2 fields2 rfl
            simpa [fmtUnit] using h2
        refine ⟨toks ++ args', ?_, ?_, ?_⟩
        · simp only [pack_fields]
          rw [show lookupEntry ((nm, v) :: es) nm = some v from by
            simp [lookupEntry]]
          simp only [Fld.pack_data]
          rw [if_neg (by simp [Count.itemCount])]
          rw [if_pos (by simp [Count.itemCount])]
          rw [hipack]
          rw [pack_fields_skip fs nm v es hnm_not]
          rw [hpack']
          simp only [exbind_ok]
        · rw [show fieldsCodes (⟨nm, fmt, .int 1, dflt⟩ :: fs) =
              fldCodes ⟨nm, fmt, .int 1, dflt⟩ ++ fieldsCodes fs from rfl]
          rw [show fldCodes ⟨nm, fmt, .int 1, dflt⟩ = fmtCodes fmt from by
            simp [fldCodes, Count.itemCount]]
          exact List.rel_append hirange hrange'
        · intro rest
          rw [show (toks ++ args') ++ rest = toks ++ (args' ++ rest) from by
            simp]
          simp only [unpack_fields]
          have htc : Count.itemCount (.int 1) * fmtUnit fmt = toks.length := by
            simp [Count.itemCount, htlen]
          rw [if_neg (by
            rw [htc]
            simp only [List.length_append]
            omega)]
          rw [show (toks ++ (args' ++ rest)).take
              (Count.itemCount (.int 1) * fmtUnit fmt) = toks from by
            rw [htc]
            exact List.take_left _ _]
          rw [show (toks ++ (args' ++ rest)).drop
              (Count.itemCount (.int 1) * fmtUnit fmt) = args' ++ rest from by
            rw [htc]
            exact List.drop_left _ _]
          rw [unpack_data_one fmt toks htlen hpos, hiunp]
          simp only [exbind_ok]
          rw [hunp' rest]
          simp only [exbind_ok]
      | 0 =>
        rcases v with x | vsv | es2
        · exact absurd (show ((k == nm) && false && conformsFields fs es)
            = true from hc) (by simp)
        case dict =>
          exact absurd (show ((k == nm) && false && conformsFields fs es)
            = true from hc) (by simp)
        have hc0 : ((k == nm) && ((vsv.length == 0) && conformsList fmt vsv) &&
            conformsFields fs es) = true := hc
        simp only [Bool.and_eq_true] at hc0
        obtain ⟨⟨hk, hcv⟩, hces⟩ := hc0
        have hkeq : nm = k := by
          have h4 : k = nm := by simpa using hk
          exact h4.symm
        subst hkeq
        simp only [Bool.and_eq_true, beq_iff_eq, List.length_eq_zero] at hcv
        obtain ⟨hvnil, _⟩ := hcv
        subst hvnil
        obtain ⟨args', hpack', hrange', hunp'⟩ :=
          hIH (by rw [Bool.and_eq_true]; exact ⟨hnodup_fs, hwfs_fs⟩) hces
        refine ⟨args', ?_, ?_, ?_⟩
        · simp only [pack_fields]
          simp only [Fld.pack_data]
          rw [if_neg (by simp [Count.itemCount])]
          rw [if_neg (by simp [Count.itemCount])]
          rw [pack_fields_skip fs nm (.arr []) es hnm_not]
          rw [hpack']
          simp only [exbind_ok, List.nil_append]
        · rw [show fieldsCodes (⟨nm, fmt, .int 0, dflt⟩ :: fs) =
              fldCodes ⟨nm, fmt, .int 0, dflt⟩ ++ fieldsCodes fs from rfl]
          rw [show fldCodes ⟨nm, fmt, .int 0, dflt⟩ = [] from by
            simp [fldCodes, Count.itemCount]]
          rw [List.nil_append]
          exact hrange'
        · intro rest
          simp only [unpack_fields]
          rw [if_neg (by simp [Count.itemCount])]
          rw [show (args' ++ rest).take (Count.itemCount (.int 0) * fmtUnit fmt)
              = [] from by simp [Count.itemCount]]
          rw [show (args' ++ rest).drop (Count.itemCount (.int 0) * fmtUnit fmt)
              = args' ++ rest from by simp [Count.itemCount]]
          rw [show unpack_data fmt (.int 0) [] = .ok (.arr []) from by
            rw [unpack_data.eq_def]
            rw [if_neg (by simp [Count.itemCount])]
            rcases fmt with sc | ⟨nm2, fields2⟩
            · rfl
            · have h2 := hstrct_cond nm2 fields2 rfl
              have h0 : (fieldsTotal fields2 == 0) = false := by
                simp only [beq_eq_false_iff_ne, ne_eq]
                omega
              simp only [h0, Bool.false_eq_true, if_false, Count.itemCount]
              rw [show chunkFixed (fieldsTotal fields2) 0 [] = [] from by
                simp [chunkFixed]]
              simp only [unpackClumps, exbind_ok]]
          simp only [exbind_ok]
          rw [hunp' rest]
          simp only [exbind_ok]
      | (m + 2) =>
        rcases v with x | vsv | es2
        · exact absurd (show ((k == nm) && false && conformsFields fs es)
            = true from hc) (by simp)
        case dict =>
          exact absurd (show ((k == nm) && false && conformsFields fs es)
            = true from hc) (by simp)
        have hc2 : ((k == nm) &&
            ((vsv.length == m + 2) && conformsList fmt vsv) &&
            conformsFields fs es) = true := hc
        simp only [Bool.and_eq_true] at hc2
        obtain ⟨⟨hk, hcv⟩, hces⟩ := hc2
        have hkeq : nm = k := by
          have h4 : k = nm := by simpa using hk
          exact h4.symm
        subst hkeq
        simp only [Bool.and_eq_true, beq_iff_eq] at hcv
        obtain ⟨hvlen, hclist⟩ := hcv
        obtain ⟨args', hpack', hrange', hunp'⟩ :=
          hIH (by rw [Bool.and_eq_true]; exact ⟨hnodup_fs, hwfs_fs⟩) hces
        have hbvsv : sizeOf vsv ≤ fu := by
          have h5 := hn
          simp only [List.cons.sizeOf_spec, Prod.mk.sizeOf_spec,
            Value.arr.sizeOf_spec] at h5
          omega
        obtain ⟨toksL, hseq, hF⟩ := ihList dflt fmt vsv hbvsv hwfmt hclist
        have hlenL : toksL.length = m + 2 := by
          rw [← (List.Forall₂.length_eq hF), hvlen]
        have hlen_each : ∀ t ∈ toksL, t.length = fmtUnit fmt := by
          intro t ht
          obtain ⟨v2, hv2, hp2⟩ := forall₂_right_mem hF t ht
          have h1 := (List.Forall₂.length_eq hp2.1).symm
          rw [fmtCodes_length] at h1
          exact h1
        have hflatlen : toksL.flatten.length = (m + 2) * fmtUnit fmt := by
          rw [flatten_length_const (fmtUnit fmt) toksL hlen_each, hlenL]
        refine ⟨toksL.flatten ++ args', ?_, ?_, ?_⟩
        · simp only [pack_fields]
          rw [show lookupEntry ((nm, Value.arr vsv) :: es) nm =
              some (.arr vsv) from by simp [lookupEntry]]
          simp only [Fld.pack_data]
          rw [if_pos (by simp only [Count.itemCount]; omega)]
          have hpi := pack_indexed_ints fmt dflt vsv []
          simp only [List.nil_append, List.length_nil, Nat.zero_add] at hpi
          rw [show indexesFor (Count.int (m + 2)) =
              (List.range vsv.length).map (fun i => [i]) from by
            simp only [indexesFor, hvlen]]
          simp only [Option.getD]
          rw [hpi, hseq]
          rw [pack_fields_skip fs nm (.arr vsv) es hnm_not]
          rw [hpack']
          simp only [exbind_ok]
        · rw [show fieldsCodes (⟨nm, fmt, .int (m + 2), dflt⟩ :: fs) =
              fldCodes ⟨nm, fmt, .int (m + 2), dflt⟩ ++ fieldsCodes fs from rfl]
          rw [show fldCodes ⟨nm, fmt, .int (m + 2), dflt⟩ =
              (List.replicate (m + 2) (fmtCodes fmt)).flatten from rfl]
          apply List.rel_append _ hrange'
          apply forall₂_flatten
          rw [← hlenL]
          exact forall₂_replicate_of_forall _ _ toksL
            (fun t ht => (forall₂_right_mem hF t ht).choose_spec.2.1)
        · intro rest
          rw [show (toksL.flatten ++ args') ++ rest =
              toksL.flatten ++ (args' ++ rest) from by simp]
          simp only [unpack_fields]
          have htc : Count.itemCount (.int (m + 2)) * fmtUnit fmt =
              toksL.flatten.length := by
            rw [hflatlen]
            rfl
          rw [if_neg (by
            rw [htc]
            simp only [List.length_append]
            omega)]
          rw [show (toksL.flatten ++ (args' ++ rest)).take
              (Count.itemCount (.int (m + 2)) * fmtUnit fmt) =
              toksL.flatten from by
            rw [htc]
            exact List.take_left _ _]
          rw [show (toksL.flatten ++ (args' ++ rest)).drop
              (Count.itemCount (.int (m + 2)) * fmtUnit fmt) =
              args' ++ rest from by
            rw [htc]
            exact List.drop_left _ _]
          rw [show unpack_data fmt (.int (m + 2)) toksL.flatten =
              .ok (.arr vsv) from by
            rw [unpack_data.eq_def]
            rw [if_neg (by
              simp only [Count.itemCount, hflatlen]
              simp)]
            rcases fmt with sc | ⟨nm2, fields2⟩
            · have hsingle : List.Forall₂
                  (fun v t => ∃ x, t = [x] ∧ v = .int x) vsv toksL :=
                hF.imp (fun _ _ hp => unpack_item_scalar_inv sc _ _ hp.2)
              dsimp only
              rw [flatten_singles_map vsv toksL hsingle]
              rfl
            · have h2 := hstrct_cond nm2 fields2 rfl
              have h0 : (fieldsTotal fields2 == 0) = false := by
                simp only [beq_eq_false_iff_ne, ne_eq]
                omega
              dsimp only
              simp only [h0, Bool.false_eq_true, if_false, Count.itemCount]
              rw [show chunkFixed (fieldsTotal fields2) (m + 2) toksL.flatten =
                  toksL from by
                rw [← hlenL]
                exact chunkFixed_flatten (fieldsTotal fields2) toksL (by
                  intro b hb
                  rw [hlen_each b hb]
                  rfl)]
              rw [unpackClumps_of_forall₂ fields2 vsv toksL
                (hF.imp (fun _ _ hp => hp.2))]]
          simp only [exbind_ok]
          rw [hunp' rest]
          simp only [exbind_ok]
    · -- dims count
      obtain ⟨⟨sc, hsc⟩, hdsne, hdsprod⟩ := hdims_cond ds rfl
      subst hsc
      rcases ds with _ | ⟨d, rest⟩
      · exact absurd rfl hdsne
      have hcD : ((k == nm) && conformsDims (.scalar sc) d rest v &&
          conformsFields fs es) = true := hc
      simp only [Bool.and_eq_true] at hcD
      obtain ⟨⟨hk, hcdims⟩, hces⟩ := hcD
      have hkeq : nm = k := by
        have : k = nm := by simpa using hk
        exact this.symm
      subst hkeq
      have hshape : conformsShape (.scalar sc) (d :: rest) v = true := hcdims
      obtain ⟨args', hpack', hrange', hunp'⟩ :=
        hIH (by rw [Bool.and_eq_true]; exact ⟨hnodup_fs, hwfs_fs⟩) hces
      have hdlen := dimsTokens_length sc (d :: rest) v hshape
      have hpack_toks : Fld.pack_data ⟨nm, .scalar sc, .dims (d :: rest), dflt⟩
          (some v) = .ok (dimsTokens (d :: rest) v) := by
        simp only [Fld.pack_data]
        by_cases hp1 : Count.itemCount (.dims (d :: rest)) > 1
        · rw [if_pos hp1]
          simp only [Option.getD]
          exact pack_indexed_dims sc dflt (d :: rest) v hshape
        · have hp0 : (d :: rest).prod = 0 := by
            simp only [Count.itemCount] at hp1
            omega
          rw [if_neg hp1]
          rw [if_neg (by simp [Count.itemCount, hp0])]
          rw [show dimsTokens (d :: rest) v = [] from
            List.eq_nil_of_length_eq_zero (by rw [hdlen, hp0])]
      refine ⟨dimsTokens (d :: rest) v ++ args', ?_, ?_, ?_⟩
      · simp only [pack_fields]
        rw [show lookupEntry ((nm, v) :: es) nm = some v from by
          simp [lookupEntry]]
        rw [hpack_toks]
        rw [pack_fields_skip fs nm v es hnm_not]
        rw [hpack']
        simp only [exbind_ok]
      · rw [show fieldsCodes (⟨nm, .scalar sc, .dims (d :: rest), dflt⟩ :: fs) =
            fldCodes ⟨nm, .scalar sc, .dims (d :: rest), dflt⟩ ++
              fieldsCodes fs from rfl]
        rw [show fldCodes ⟨nm, .scalar sc, .dims (d :: rest), dflt⟩ =
            (List.replicate (Count.itemCount (.dims (d :: rest))) [sc]).flatten
            from rfl]
        rw [flatten_replicate_singleton]
        apply List.rel_append _ hrange'
        rw [show Count.itemCount (.dims (d :: rest)) =
            (dimsTokens (d :: rest) v).length from by
          rw [hdlen]
          rfl]
        exact forall₂_replicate_of_forall _ sc _
          (dimsTokens_in_range sc (d :: rest) v hshape)
      · intro rest2
        rw [show (dimsTokens (d :: rest) v ++ args') ++ rest2 =
            dimsTokens (d :: rest) v ++ (args' ++ rest2) from by simp]
        simp only [unpack_fields]
        have htc : Count.itemCount (.dims (d :: rest)) *
            fmtUnit (.scalar sc) = (dimsTokens (d :: rest) v).length := by
          rw [hdlen]
          simp [Count.itemCount, fmtUnit]
        rw [if_neg (by
          rw [htc]
          simp only [List.length_append]
          omega)]
        rw [show (dimsTokens (d :: rest) v ++ (args' ++ rest2)).take
            (Count.itemCount (.dims (d :: rest)) * fmtUnit (.scalar sc)) =
            dimsTokens (d :: rest) v from by
          rw [htc]
          exact List.take_left _ _]
        rw [show (dimsTokens (d :: rest) v ++ (args' ++ rest2)).drop
            (Count.itemCount (.dims (d :: rest)) * fmtUnit (.scalar sc)) =
            args' ++ rest2 from by
          rw [htc]
          exact List.drop_left _ _]
        rw [show unpack_data (.scalar sc) (.dims (d :: rest))
            (dimsTokens (d :: rest) v) = .ok v from by
          rw [unpack_data.eq_def]
          rw [if_neg (by
            simp only [Count.itemCount, fmtUnit, hdlen]
            simp)]
          dsimp only
          rw [reshapeDims_dimsTokens sc (d :: rest) v hshape]]
        simp only [exbind_ok]
        rw [hunp' rest2]
        simp only [exbind_ok]

theorem RT_main : ∀ n : Nat, ItemP n ∧ ListP n ∧ StructP n := by
  intro n
  induction n with
  | zero =>
    refine ⟨?_, ?_, ?_⟩
    · intro dflt fmt v hn _ _
      rcases v with x | vs | es <;> simp at hn
    · intro dflt fmt vs hn _ _
      rcases vs with _ | ⟨v, vs⟩ <;> simp at hn
    · intro fields entries hn _ _
      rcases entries with _ | ⟨e, es⟩ <;> simp at hn
  | succ n ih =>
    exact ⟨RT_item_step n ih.2.2, RT_list_step n ih.1 ih.2.1,
      RT_struct_step n ih.1 ih.2.1 ih.2.2⟩

theorem RT_struct_final (fields : List Fld) (entries : List (String × Value))
    (hwf : (nodupNames (fieldNames fields) && wfFields fields) = true)
    (hc : conformsFields fields entries = true) :
    ∃ args, pack_fields fields entries = .ok args ∧
      List.Forall₂ (fun sc t => in_range sc t = true) (fieldsCodes fields) args ∧
      ∀ rest, unpack_fields fields (args ++ rest) = .ok (entries, rest) :=
  (RT_main (sizeOf entries)).2.2 fields entries (Nat.le_refl _) hwf hc

/-- C1: for every declared Structure in the round-trip grammar (distinct
field names, nested structures with an int count and at least one flat slot,
multi-dimensional counts on scalar fields with a shape of product other than
one), every byte order and every conforming value tree, unpacking the packed
bytes returns the original tree. -/
theorem C1_structure_roundtrip (e : Endian) (name : String) (fields : List Fld)
    (tree : Value)
    (hwf : wfFmt (.strct name fields) = true)
    (hc : conforms (.strct name fields) tree = true) :
    (do
      let bs ← Strct.pack e ⟨name, fields⟩ tree
      Strct.unpack e ⟨name, fields⟩ bs) = .ok tree := by
  rcases tree with x | vs | entries
  · simp [conforms] at hc
  · simp [conforms] at hc
  have hwf' : (nodupNames (fieldNames fields) && wfFields fields) = true := hwf
  have hc' : conformsFields fields entries = true := hc
  obtain ⟨args, hpack, hrange, hunp⟩ := RT_struct_final fields entries hwf' hc'
  obtain ⟨bs, hbpack, hblen, hbunp⟩ :=
    structPackArgs_roundtrip e (fieldsCodes fields) args hrange
  rw [show Strct.pack e ⟨name, fields⟩ (.dict entries) = .ok bs from by
    simp only [Strct.pack]
    rw [show pack_item_struct fields (some (.dict entries)) =
        pack_fields fields entries from by
      rw [pack_item_struct.eq_def]
      rfl]
    rw [hpack]
    simp only [exbind_ok]
    exact hbpack]
  simp only [exbind_ok]
  simp only [Strct.unpack]
  rw [hbunp]
  simp only [exbind_ok]
  rw [unpack_item_struct.eq_def]
  have h0 := hunp []
  rw [List.append_nil] at h0
  rw [h0]

/-- C1 witness: the example structure and tree round trip in big-endian
order. -/
theorem C1_structure_roundtrip_witness :
    (do
      let bs ← Strct.pack .big ⟨"Exp", exFieldsC1⟩ exTreeC1
      Strct.unpack .big ⟨"Exp", exFieldsC1⟩ bs) = .ok exTreeC1 :=
  C1_structure_roundtrip .big "Exp" exFieldsC1 exTreeC1 (by decide) (by decide)

set_option maxRecDepth 10000 in
/-- C7 counterexample: a 50-byte buffer short of the 126-byte WaveHeader2
whose padded decode carries npnts = 1: the retry does not propagate the
original struct error but fails with the AssertionError on npnts. -/
theorem C7_unpack_from_counterexample :
    exBufC7bad.length < WaveHeader2.size ∧
    structUnpackFrom .little WaveHeader2 exBufC7bad 0 = .error .structError ∧
    unpack_from .little WaveHeader2 exBufC7bad 0 = .error (.assertNpnts 1) ∧
    (Err.assertNpnts 1 ≠ Err.structError) :=
  ⟨by decide, rfl,
   unpack_fromF_sound 300 .little WaveHeader2 exBufC7bad 0 _ rfl, by decide⟩

/-- C7 amended: on a buffer shorter than the declared size, a structure not
named WaveHeader2 or WaveHeader5 fails at once with the struct error; for
those two names the buffer is padded with zero bytes to the declared size and
re-unpacked, a decoded npnts of zero returns the padded decode, and a nonzero
npnts fails with the assertion error carrying that npnts — not with the
original struct error. -/
theorem C7_unpack_from_amended (e : Endian) (s : Strct) (buffer : List Nat)
    (offset : Nat) (hshort : buffer.length - offset < s.size) :
    (s.name ≠ "WaveHeader2" → s.name ≠ "WaveHeader5" →
      unpack_from e s buffer offset = .error .structError) ∧
    ((s.name = "WaveHeader2" ∨ s.name = "WaveHeader5") →
      ∀ data n,
        unpack_dict_from e s
          (buffer ++ List.replicate (s.size + offset - buffer.length) 0) offset =
            .ok data →
        getField data "npnts" = some (.int n) →
        (n = 0 → unpack_from e s buffer offset = .ok data) ∧
        (n ≠ 0 → unpack_from e s buffer offset = .error (.assertNpnts n))) := by
  have hlen : buffer.length < offset + s.size := by omega
  have hsf : structUnpackFrom e s buffer offset = .error .structError := by
    unfold structUnpackFrom
    rw [if_pos hlen]
  have hplen : (buffer ++ List.replicate (s.size + offset - buffer.length) 0).length
      = offset + s.size := by
    simp only [List.length_append, List.length_replicate]
    omega
  constructor
  · intro h2 h5
    unfold unpack_from
    rw [hsf]
    try dsimp only
    rw [if_pos (by simp [h2, h5])]
  · intro hname data n hok hnp
    have hcond : ¬ ((s.name != "WaveHeader2" && s.name != "WaveHeader5") = true) := by
      rcases hname with h | h <;> simp [h]
    unfold unpack_from
    rw [hsf]
    try dsimp only
    rw [if_neg hcond]
    try dsimp only
    rw [if_pos hshort]
    unfold unpack_dict_from unpack_from at hok
    rcases h9 : structUnpackFrom e s
        (buffer ++ List.replicate (s.size + offset - buffer.length) 0) offset with
      err | args2
    · rw [h9] at hok
      try dsimp only at hok
      rw [if_neg hcond] at hok
      try dsimp only at hok
      rw [if_neg (by rw [hplen]; omega)] at hok
      rw [h9] at hok
      try dsimp only at hok
      exact absurd hok (by simp)
    · rw [h9] at hok
      try dsimp only at hok
      refine ⟨fun h0 => ?_, fun hne => ?_⟩
      · subst h0
        simp only [hok, hnp]
        simp
      · simp only [hok, hnp]
        rw [if_neg (by simpa using hne)]

set_option maxRecDepth 10000 in
/-- C7 amended witness: a 50-byte all-zero buffer decodes through the padded
retry to the zero WaveHeader2 dict, npnts = 0. -/
theorem C7_unpack_from_amended_witness :
    unpack_from .little WaveHeader2 (List.replicate 50 0) 0 =
      .ok waveHeader2ZeroDict :=
  (((C7_unpack_from_amended .little WaveHeader2 (List.replicate 50 0) 0
      (by decide)).2 (Or.inl rfl) waveHeader2ZeroDict 0
      (unpack_dict_fromF_sound 300 .little WaveHeader2 _ 0 _ rfl)
      rfl).1 rfl)

/-- The shape arm of the load pipeline past the version dispatch: a nonzero
type code gets shape5 of the decoded nDim under version 5 and the
one-dimensional [npnts] under versions 1-3. -/
theorem load_shape_tail (bo : Endian) (file : List Nat) (w : Int)
    (shape : List Int) (bin wave : Value) (typ npnts : Int)
    (h : (do
      let (bin_struct, wave_struct, checkSumSize) ← version_structs w
      let b := file.take (bin_struct.size + wave_struct.size)
      let c ← checksum b bo 0 checkSumSize
      if c != 0 then Except.error (.checksumError c)
      else do
        let bin_info ← unpack_dict_from bo bin_struct b 0
        let wave_info ← unpack_dict_from bo wave_struct b bin_struct.size
        let wfmSize ← getIntField bin_info "wfmSize"
        let waveDataSize := waveDataSizeOf w wfmSize wave_struct.size
        let typ2 ← getIntField wave_info "type"
        let npnts2 ← getIntField wave_info "npnts"
        let shp ←
          if w == 5 then do
            let nDim ← getIntListField wave_info "nDim"
            pure (shape5 nDim)
          else pure [npnts2]
        let _ ← size_check typ2 npnts2 waveDataSize
        let shp := if typ2 == 0 then [waveDataSize] else shp
        (.ok (shp, bin_info, wave_info) :
          Except Err (List Int × Value × Value))) = .ok (shape, bin, wave))
    (htyp : getIntField wave "type" = .ok typ)
    (hnp : getIntField wave "npnts" = .ok npnts)
    (ht0 : (typ == 0) = false) :
    ((w = 1 ∨ w = 2 ∨ w = 3) → shape = [npnts]) ∧
    (w = 5 → ∃ nDim, getIntListField wave "nDim" = .ok nDim ∧
      shape = shape5 nDim) := by
  rcases h5 : version_structs w with err | ⟨bin_struct, wave_struct, cks⟩
  · rw [h5] at h
    simp only [exbind_error] at h
    exact absurd h (by simp)
  rw [h5] at h
  simp only [exbind_ok] at h
  try dsimp only at h
  rcases h6 : checksum (file.take (bin_struct.size + wave_struct.size)) bo 0 cks
    with err | c
  · rw [h6] at h
    simp only [exbind_error] at h
    exact absurd h (by simp)
  rw [h6] at h
  simp only [exbind_ok] at h
  try dsimp only at h
  rcases hcc : (c != 0) with _ | _
  · rw [hcc] at h
    simp only [Bool.false_eq_true, if_false] at h
    rcases h7 : unpack_dict_from bo bin_struct
        (file.take (bin_struct.size + wave_struct.size)) 0 with err | bin_info
    · rw [h7] at h
      simp only [exbind_error] at h
      exact absurd h (by simp)
    rw [h7] at h
    simp only [exbind_ok] at h
    try dsimp only at h
    rcases h8 : unpack_dict_from bo wave_struct
        (file.take (bin_struct.size + wave_struct.size)) bin_struct.size with
      err | wave_info
    · rw [h8] at h
      simp only [exbind_error] at h
      exact absurd h (by simp)
    rw [h8] at h
    simp only [exbind_ok] at h
    try dsimp only at h
    rcases h9 : getIntField bin_info "wfmSize" with err | wfmSize
    · rw [h9] at h
      simp only [exbind_error] at h
      exact absurd h (by simp)
    rw [h9] at h
    simp only [exbind_ok] at h
    try dsimp only at h
    rcases h10 : getIntField wave_info "type" with err | typ0
    · rw [h10] at h
      simp only [exbind_error] at h
      exact absurd h (by simp)
    rw [h10] at h
    simp only [exbind_ok] at h
    try dsimp only at h
    rcases h11 : getIntField wave_info "npnts" with err | npnts0
    · rw [h11] at h
      simp only [exbind_error] at h
      exact absurd h (by simp)
    rw [h11] at h
    simp only [exbind_ok] at h
    try dsimp only at h
    rcases hv5 : (w == 5) with _ | _
    · rw [hv5] at h
      simp only [Bool.false_eq_true, if_false] at h
      simp only [expure, exbind_ok] at h
      try dsimp only at h
      rcases h13 : size_check typ0 npnts0 (waveDataSizeOf w wfmSize wave_struct.size)
        with err | u
      · rw [h13] at h
        simp only [exbind_error] at h
        exact absurd h (by simp)
      rw [h13] at h
      simp only [exbind_ok] at h
      try dsimp only at h
      simp only [Except.ok.injEq, Prod.mk.injEq] at h
      obtain ⟨hshape, hbin, hwave⟩ := h
      subst hwave
      rw [h10] at htyp
      have htt : typ0 = typ := Except.ok.inj htyp
      subst htt
      rw [h11] at hnp
      have hnn : npnts0 = npnts := Except.ok.inj hnp
      subst hnn
      rw [if_neg (by simp [ht0])] at hshape
      constructor
      · intro _
        exact hshape.symm
      · intro hw5
        rw [hw5] at hv5
        simp at hv5
    · rw [hv5] at h
      simp only [if_true] at h
      rcases h12 : getIntListField wave_info "nDim" with err | nDim
      · rw [h12] at h
        simp only [exbind_error] at h
        exact absurd h (by simp)
      rw [h12] at h
      simp only [exbind_ok, expure] at h
      try dsimp only at h
      rcases h13 : size_check typ0 npnts0 (waveDataSizeOf w wfmSize wave_struct.size)
        with err | u
      · rw [h13] at h
        simp only [exbind_error] at h
        exact absurd h (by simp)
      rw [h13] at h
      simp only [exbind_ok] at h
      try dsimp only at h
      simp only [Except.ok.injEq, Prod.mk.injEq] at h
      obtain ⟨hshape, hbin, hwave⟩ := h
      subst hwave
      rw [h10] at htyp
      have htt : typ0 = typ := Except.ok.inj htyp
      subst htt
      rw [if_neg (by simp [ht0])] at hshape
      constructor
      · intro hw123
        have hw5 : w = 5 := by simpa using hv5
        rcases hw123 with hw | hw | hw <;> omega
      · intro _
        exact ⟨nDim, h12, hshape.symm⟩
  · rw [hcc] at h
    simp only [if_true] at h
    exact absurd h (by simp)

/-- For every accepted numeric (nonzero type) wave, the shape the load
pipeline returns is [npnts] when the dispatched version is 1, 2 or 3, and
shape5 of the decoded nDim when it is 5. -/
theorem load_shape_rule (native : Endian) (file : List Nat) (shape : List Int)
    (bin wave : Value) (version typ npnts : Int)
    (h : load native file = .ok (shape, bin, wave))
    (hv : loadVersion native file = some version)
    (htyp : getIntField wave "type" = .ok typ)
    (hnp : getIntField wave "npnts" = .ok npnts)
    (ht0 : (typ == 0) = false) :
    ((version = 1 ∨ version = 2 ∨ version = 3) → shape = [npnts]) ∧
    (version = 5 → ∃ nDim, getIntListField wave "nDim" = .ok nDim ∧
      shape = shape5 nDim) := by
  simp only [load] at h
  simp only [loadVersion] at hv
  rcases h1 : unpack_dict_from native BinHeaderCommon (file.take BinHeaderCommon.size) 0
    with err | vd
  · rw [h1] at h
    simp only [exbind_error] at h
    exact absurd h (by simp)
  rw [h1] at h hv
  simp only [exbind_ok] at h
  try dsimp only at h hv
  rcases h2 : getIntField vd "version" with err | version0
  · rw [h2] at h
    simp only [exbind_error] at h
    exact absurd h (by simp)
  rw [h2] at h hv
  simp only [exbind_ok] at h
  try dsimp only at h hv
  rcases hr : need_to_reorder_bytes version0 with _ | _
  · rw [hr] at h hv
    simp only [Bool.false_eq_true, if_false] at h hv
    simp only [expure, exbind_ok] at h
    try dsimp only at h
    have hveq : version0 = version := by simpa using hv
    subst hveq
    exact load_shape_tail (byte_order native false) file version0 shape bin wave
      typ npnts h htyp hnp ht0
  · rw [hr] at h hv
    simp only [if_true] at h hv
    rcases h3 : unpack_dict_from (byte_order native true) BinHeaderCommon
        (file.take BinHeaderCommon.size) 0 with err | vd2
    · rw [h3] at h
      simp only [exbind_error] at h
      exact absurd h (by simp)
    rw [h3] at h hv
    simp only [exbind_ok] at h
    try dsimp only at h hv
    rcases h4 : getIntField vd2 "version" with err | v2
    · rw [h4] at h
      simp only [exbind_error] at h
      exact absurd h (by simp)
    rw [h4] at h hv
    simp only [exbind_ok] at h
    try dsimp only at h hv
    have hveq : v2 = version := by simpa using hv
    subst hveq
    exact load_shape_tail (byte_order native true) file v2 shape bin wave
      typ npnts h htyp hnp ht0

/-- C3 amended: the version-5 shape is the list of all strictly positive
entries of nDim in order (not only the leading nonzero ones), defaulting to
[0] when no entry is positive, with the two spec examples; and for every
accepted numeric wave the load pipeline derives the shape as [npnts] when
the dispatched version is 1, 2 or 3 and as shape5 of the decoded nDim when
it is 5. -/
theorem C3_shape_amended (nDim : List Int) :
    ((∃ n ∈ nDim, 0 < n) →
      shape5 nDim = nDim.filter (fun n => decide (0 < n))) ∧
    ((∀ n ∈ nDim, n ≤ 0) → shape5 nDim = [0]) ∧
    shape5 [5, 0, 0, 0] = [5] ∧ shape5 [0, 0, 0, 0] = [0] ∧
    (∀ (native : Endian) (file : List Nat) (shape : List Int)
       (bin wave : Value) (version typ npnts : Int),
      load native file = .ok (shape, bin, wave) →
      loadVersion native file = some version →
      getIntField wave "type" = .ok typ →
      getIntField wave "npnts" = .ok npnts →
      (typ == 0) = false →
      ((version = 1 ∨ version = 2 ∨ version = 3) → shape = [npnts]) ∧
      (version = 5 → ∃ nDim2, getIntListField wave "nDim" = .ok nDim2 ∧
        shape = shape5 nDim2)) := by
  refine ⟨?_, ?_, by decide, by decide,
    fun native file shape bin wave version typ npnts h hv htyp hnp ht0 =>
      load_shape_rule native file shape bin wave version typ npnts h hv htyp
        hnp ht0⟩
  · rintro ⟨n, hn, hpos⟩
    have hmem : n ∈ nDim.filter (fun n => decide (0 < n)) :=
      List.mem_filter.mpr ⟨hn, by simpa using hpos⟩
    have hne : ¬ (nDim.filter (fun n => decide (0 < n))).isEmpty := by
      rcases hfil : nDim.filter (fun n => decide (0 < n)) with _ | _
      · rw [hfil] at hmem
        cases hmem
      · simp
    simp only [shape5]
    rw [if_neg (by simpa using hne)]
  · intro hall
    have hfil : nDim.filter (fun n => decide (0 < n)) = [] := by
      rw [List.filter_eq_nil_iff]
      intro a ha
      simpa using not_lt.mpr (hall a ha)
    simp only [shape5, hfil]
    rfl

set_option maxRecDepth 10000 in
/-- C3 amended witness: the filter rule at nDim = [5, 0, 3, 0], and the
version-1 numeric file exFileC3 (type 2, npnts 1) whose returned shape is
derived as [npnts] = [1] through the amended rule. -/
theorem C3_shape_amended_witness :
    shape5 [5, 0, 3, 0] = List.filter (fun n => decide (0 < n)) [5, 0, 3, 0] ∧
    ∃ shape bin wave, load .little exFileC3 = .ok (shape, bin, wave) ∧
      loadVersion .little exFileC3 = some 1 ∧ shape = [1] := by
  have hload : load .little exFileC3 = .ok ([1], exC3BinDict, exC3WaveDict) :=
    loadF_sound 300 .little exFileC3 _ rfl
  have hver : loadVersion .little exFileC3 = some 1 := by
    simp only [loadVersion]
    rw [unpack_dict_fromF_sound 100 .little BinHeaderCommon
      (exFileC3.take BinHeaderCommon.size) 0 (.ok (.dict [("version", .int 1)])) rfl]
    decide
  refine ⟨(C3_shape_amended [5, 0, 3, 0]).1 ⟨5, by decide, by decide⟩,
    [1], exC3BinDict, exC3WaveDict, hload, hver, ?_⟩
  exact ((C3_shape_amended []).2.2.2.2 .little exFileC3 [1] exC3BinDict
    exC3WaveDict 1 2 1 hload hver rfl rfl (by decide)).1 (Or.inl rfl)
